import Mathlib

/-!
Verification of the bidirectional JSON-Schema / property-tree conversion engine
of the json-schema-editor repository.

The development shallowly embeds the TypeScript core:
* `generateSchema` / `buildProperties` from `src/lib/schema-generator.ts`,
* `parseSchema` / `parseProperties` from `src/lib/schema-parser.ts`,
* `updateProperty` / `deleteProperty` from the schema-builder state hook,
* the `PropertyData` / `SchemaMetadata` data model from `src/types/schema.ts`.

JSON documents are modelled as an inductive `Json` value; JavaScript objects
are modelled as insertion-ordered association lists (property assignment on an
existing key updates the value in place, keeping its position, exactly as in
JavaScript).  JavaScript numbers are modelled as integers: the engine only
stores, copies and compares them, it never computes with them.  Constraint
fields of a parsed property are modelled as `Option Json` because the parser
copies whatever JSON value sits in the document field, regardless of its type.
Thrown `TypeError`s (member access on `null`) are modelled with `Except Unit`.
The impure id allocator (`Date.now()`-based) is modelled by a constant fresh
id; all tree comparisons in the claims are up to id substitution.
-/

/-- A JSON value.  Objects keep their fields as an insertion-ordered
association list. -/
inductive Json where
  | null : Json
  | bool : Bool → Json
  | num : Int → Json
  | str : String → Json
  | arr : List Json → Json
  | obj : List (String × Json) → Json

/- JavaScript strict equality `===` on JSON values (used by
`requiredList.includes(key)` and the `format === "filename"` test; reference
equality on objects/arrays never matters there because only primitives are
compared in the source). -/
mutual
def jeq : Json → Json → Bool
  | Json.null, Json.null => true
  | Json.bool a, Json.bool b => a == b
  | Json.num a, Json.num b => a == b
  | Json.str a, Json.str b => a == b
  | Json.arr a, Json.arr b => jeqA a b
  | Json.obj a, Json.obj b => jeqO a b
  | _, _ => false
def jeqA : List Json → List Json → Bool
  | [], [] => true
  | x :: xs, y :: ys => jeq x y && jeqA xs ys
  | _, _ => false
def jeqO : List (String × Json) → List (String × Json) → Bool
  | [], [] => true
  | f :: fs, g :: gs => f.1 == g.1 && jeq f.2 g.2 && jeqO fs gs
  | _, _ => false
end

instance instBEqJson : BEq Json := ⟨jeq⟩

/-- JavaScript truthiness of a JSON value (`NaN` is not representable in the
integer number model; the engine never produces it). -/
def Json.truthy : Json → Bool
  | Json.null => false
  | Json.bool b => b
  | Json.num n => n != 0
  | Json.str s => s != ""
  | Json.arr _ => true
  | Json.obj _ => true

/-- Field lookup in an object's association list (first match; real JavaScript
objects never hold duplicate keys). -/
def lookupField : List (String × Json) → String → Option Json
  | [], _ => none
  | (k2, v) :: fs, k => if k2 = k then some v else lookupField fs k

/-- JavaScript member access `j[k]`: a field of an object, `undefined`
(modelled as `none`) on arrays and primitives. -/
def getField : Json → String → Option Json
  | Json.obj fs, k => lookupField fs k
  | _, _ => none

/-- JavaScript `typeof v === "object"`: true for objects, arrays and `null`. -/
def typeofObject : Json → Bool
  | Json.obj _ => true
  | Json.arr _ => true
  | Json.null => true
  | _ => false

/-- JavaScript `Array.isArray`. -/
def isJsonArray : Json → Bool
  | Json.arr _ => true
  | _ => false

/-- JavaScript `Object.entries`: the fields of an object in insertion order;
index/value pairs for an array; empty for primitives (primitives are filtered
out by `typeof` guards before `Object.entries` is ever reached). -/
def entriesOf : Json → List (String × Json)
  | Json.obj fs => fs
  | Json.arr xs => xs.enum.map (fun ix => (toString ix.1, ix.2))
  | _ => []

/-- `typeof j[k] === "string" ? j[k] : undefined`. -/
def strField (j : Json) (k : String) : Option String :=
  match getField j k with
  | some (Json.str s) => some s
  | _ => none

/-- `typeof j[k] === "string" ? j[k] : d`. -/
def strFieldD (j : Json) (k : String) (d : String) : String :=
  match getField j k with
  | some (Json.str s) => s
  | _ => d

/-- Truthiness of a (possibly absent) field. -/
def truthyField (j : Json) (k : String) : Bool :=
  match getField j k with
  | some v => v.truthy
  | none => false

/-- `if (v) x = v`: keep an optional value only when it is truthy. -/
def truthyOpt : Option Json → Option Json
  | some v => if v.truthy then some v else none
  | none => none

/-- `Array.isArray(j.required) ? j.required : []`. -/
def reqListOf (j : Json) : List Json :=
  match getField j "required" with
  | some (Json.arr xs) => xs
  | _ => []

/- Structural size of a JSON value, ignoring strings; termination measure for
the parser (object keys synthesized for array entries do not grow it). -/
mutual
def jsize : Json → Nat
  | Json.arr xs => 1 + jsizeA xs
  | Json.obj fs => 1 + jsizeF fs
  | _ => 1
def jsizeA : List Json → Nat
  | [] => 0
  | x :: xs => 1 + jsize x + jsizeA xs
def jsizeF : List (String × Json) → Nat
  | [] => 0
  | f :: fs => 1 + jsize f.2 + jsizeF fs
end

/-- The internal tree node (`PropertyData` in `src/types/schema.ts`).
`type` is an arbitrary string at runtime (the generator copies unknown type
tags verbatim, the parser may produce any string found in the document).
Constraint fields are `Option Json`: the parser copies whatever JSON value
the document holds there. -/
inductive PropertyData where
  | mk (id : String) (key : String) (required : Bool) (type : String)
      (title : Option String) (description : Option String)
      (minLength : Option Json) (maxLength : Option Json)
      (pattern : Option Json) (enum : Option (List Json))
      (minimum : Option Json) (maximum : Option Json)
      (minItems : Option Json) (maxItems : Option Json)
      (uniqueItems : Option Json)
      (items : Option PropertyData) (children : Option (List PropertyData))

namespace PropertyData

def id : PropertyData → String
  | mk i _ _ _ _ _ _ _ _ _ _ _ _ _ _ _ _ => i
def key : PropertyData → String
  | mk _ k _ _ _ _ _ _ _ _ _ _ _ _ _ _ _ => k
def required : PropertyData → Bool
  | mk _ _ r _ _ _ _ _ _ _ _ _ _ _ _ _ _ => r
def type : PropertyData → String
  | mk _ _ _ t _ _ _ _ _ _ _ _ _ _ _ _ _ => t
def title : PropertyData → Option String
  | mk _ _ _ _ t _ _ _ _ _ _ _ _ _ _ _ _ => t
def description : PropertyData → Option String
  | mk _ _ _ _ _ d _ _ _ _ _ _ _ _ _ _ _ => d
def minLength : PropertyData → Option Json
  | mk _ _ _ _ _ _ a _ _ _ _ _ _ _ _ _ _ => a
def maxLength : PropertyData → Option Json
  | mk _ _ _ _ _ _ _ a _ _ _ _ _ _ _ _ _ => a
def pattern : PropertyData → Option Json
  | mk _ _ _ _ _ _ _ _ a _ _ _ _ _ _ _ _ => a
def enum : PropertyData → Option (List Json)
  | mk _ _ _ _ _ _ _ _ _ a _ _ _ _ _ _ _ => a
def minimum : PropertyData → Option Json
  | mk _ _ _ _ _ _ _ _ _ _ a _ _ _ _ _ _ => a
def maximum : PropertyData → Option Json
  | mk _ _ _ _ _ _ _ _ _ _ _ a _ _ _ _ _ => a
def minItems : PropertyData → Option Json
  | mk _ _ _ _ _ _ _ _ _ _ _ _ a _ _ _ _ => a
def maxItems : PropertyData → Option Json
  | mk _ _ _ _ _ _ _ _ _ _ _ _ _ a _ _ _ => a
def uniqueItems : PropertyData → Option Json
  | mk _ _ _ _ _ _ _ _ _ _ _ _ _ _ a _ _ => a
def items : PropertyData → Option PropertyData
  | mk _ _ _ _ _ _ _ _ _ _ _ _ _ _ _ it _ => it
def children : PropertyData → Option (List PropertyData)
  | mk _ _ _ _ _ _ _ _ _ _ _ _ _ _ _ _ c => c

end PropertyData

/- Node-count size of a property tree; termination measure for the
generator. -/
mutual
def psize : PropertyData → Nat
  | PropertyData.mk _ _ _ _ _ _ _ _ _ _ _ _ _ _ _ it ch =>
      1 + psizeO it + psizeLO ch
def psizeO : Option PropertyData → Nat
  | none => 0
  | some p => 1 + psize p
def psizeL : List PropertyData → Nat
  | [] => 0
  | p :: ps => 1 + psize p + psizeL ps
def psizeLO : Option (List PropertyData) → Nat
  | none => 0
  | some l => 1 + psizeL l
end

/- Replace every `id` in a tree by the empty string; two trees are "equal up
to id substitution" when their stripped forms are equal. -/
mutual
def stripIds : PropertyData → PropertyData
  | PropertyData.mk _ k r t ti d mnl mxl pa en mn mx mni mxi u it ch =>
      PropertyData.mk "" k r t ti d mnl mxl pa en mn mx mni mxi u
        (stripIdsO it) (stripIdsLO ch)
def stripIdsO : Option PropertyData → Option PropertyData
  | none => none
  | some p => some (stripIds p)
def stripIdsL : List PropertyData → List PropertyData
  | [] => []
  | p :: ps => stripIds p :: stripIdsL ps
def stripIdsLO : Option (List PropertyData) → Option (List PropertyData)
  | none => none
  | some l => some (stripIdsL l)
end

/- Does a node with the given id occur anywhere in the tree (at the top
level, in `children`, or in an `items` slot)? -/
mutual
def occursId (i : String) : PropertyData → Bool
  | PropertyData.mk pid _ _ _ _ _ _ _ _ _ _ _ _ _ _ it ch =>
      pid == i || occursIdO i it || occursIdLO i ch
def occursIdO (i : String) : Option PropertyData → Bool
  | none => false
  | some p => occursId i p
def occursIdL (i : String) : List PropertyData → Bool
  | [] => false
  | p :: ps => occursId i p || occursIdL i ps
def occursIdLO (i : String) : Option (List PropertyData) → Bool
  | none => false
  | some l => occursIdL i l
end

/-- `SchemaMetadata` from `src/types/schema.ts`. -/
structure SchemaMetadata where
  title : String
  description : String
  version : String
deriving DecidableEq

/-- Result shape of the parser (`ParsedSchema` in `schema-parser.ts`). -/
structure ParsedSchema where
  properties : List PropertyData
  metadata : Option SchemaMetadata

/-- `result[key] = value` on a JavaScript object: update in place when the key
exists (keeping its position), append otherwise. -/
def setField : List (String × Json) → String → Json → List (String × Json)
  | [], k, v => [(k, v)]
  | (k2, v2) :: fs, k, v =>
      if k2 = k then (k2, v) :: fs else (k2, v2) :: setField fs k v

/-- `props.filter((p) => p.required && p.key).map((p) => p.key)`: the keys of
the required properties of one nesting level, in sequence order. -/
def requiredKeys (props : List PropertyData) : List String :=
  (props.filter (fun p => p.required && p.key != "")).map PropertyData.key

/-- Emit one field when the (already gated) value is present. -/
def optField (name : String) (o : Option Json) : List (String × Json) :=
  match o with
  | some j => [(name, j)]
  | none => []

/-- Gate of `if (s) out[name] = s` for an optional string field: kept only
when present and non-empty (JavaScript string truthiness). -/
def gateStr : Option String → Option Json
  | some s => if s != "" then some (Json.str s) else none
  | none => none

/-- Gate of `if (e && e.length > 0) out.enum = e`. -/
def gateEnum : Option (List Json) → Option Json
  | some l => if l.length > 0 then some (Json.arr l) else none
  | none => none

/- The fragment builder of `schema-generator.ts` (`buildProperties` and the
per-property schema construction in its `forEach` body).  Field insertion
order mirrors the assignment order of the source.  `buildPropsAux` is the
`forEach` accumulation: skip empty keys, otherwise assign the built fragment
under the property's key (last write wins). -/
mutual
def buildPropFields : PropertyData → List (String × Json)
  | PropertyData.mk _ _ _ ty title desc mnl mxl pat en mn mx mni mxi u items children =>
    [("type", Json.str (if ty == "file" then "string" else ty))]
    ++ optField "title" (gateStr title)
    ++ optField "description" (gateStr desc)
    ++ (if ty == "file" then [("format", Json.str "filename")] else [])
    ++ (if ty == "string" then
          optField "minLength" mnl ++ optField "maxLength" mxl
          ++ optField "pattern" (truthyOpt pat) ++ optField "enum" (gateEnum en)
        else [])
    ++ (if ty == "number" || ty == "integer" then
          optField "minimum" mn ++ optField "maximum" mx
        else [])
    ++ (if ty == "array" then
          optField "minItems" mni ++ optField "maxItems" mxi
          ++ optField "uniqueItems" (truthyOpt u)
          ++ (match items with
              | some it =>
                  [("items", (lookupField (buildPropsAux [] [it]) it.key).getD
                      (Json.obj [("type", Json.str it.type)]))]
              | none => [])
        else [])
    ++ (if ty == "object" then
          (match children with
           | some cs =>
               if cs.length > 0 then
                 [("properties", Json.obj (buildPropsAux [] cs))]
                 ++ (if (requiredKeys cs).length > 0 then
                       [("required", Json.arr ((requiredKeys cs).map Json.str))]
                     else [])
               else []
           | none => [])
        else [])
termination_by p => psize p
decreasing_by
  all_goals (simp [psize, psizeO, psizeL, psizeLO] <;> omega)
def buildPropsAux (acc : List (String × Json)) : List PropertyData → List (String × Json)
  | [] => acc
  | p :: rest =>
      if p.key == "" then buildPropsAux acc rest
      else buildPropsAux (setField acc p.key (Json.obj (buildPropFields p))) rest
termination_by l => psizeL l
decreasing_by
  all_goals (simp [psize, psizeO, psizeL, psizeLO] <;> omega)
end

/-- `buildProperties` from `schema-generator.ts`. -/
def buildProperties (props : List PropertyData) : List (String × Json) :=
  buildPropsAux [] props

/-- The metadata fields of the output document (`if (includeMetadata &&
metadata)` block of `generateSchema`): non-empty `title`/`description`/
`version` are copied, in that order. -/
def metaFieldsOf (includeMetadata : Bool) (metadata : Option SchemaMetadata) :
    List (String × Json) :=
  match includeMetadata, metadata with
  | true, some m =>
      (if m.title != "" then [("title", Json.str m.title)] else [])
      ++ (if m.description != "" then [("description", Json.str m.description)] else [])
      ++ (if m.version != "" then [("version", Json.str m.version)] else [])
  | _, _ => []

theorem metaFieldsOf_none (includeMetadata : Bool) :
    metaFieldsOf includeMetadata none = [] := by
  cases includeMetadata <;> rfl

theorem metaFieldsOf_false (metadata : Option SchemaMetadata) :
    metaFieldsOf false metadata = [] := by
  cases metadata <;> rfl

/-- `generateSchema` from `schema-generator.ts`. -/
def generateSchema (properties : List PropertyData)
    (metadata : Option SchemaMetadata) (includeMetadata : Bool) : Json :=
  let metaFields := metaFieldsOf includeMetadata metadata
  let props := buildProperties properties
  let req := requiredKeys properties
  Json.obj ([("type", Json.str "object")]
    ++ metaFields
    ++ (if props.length > 0 then [("properties", Json.obj props)] else [])
    ++ (if req.length > 0 then [("required", Json.arr (req.map Json.str))] else []))

/-- `updateProperty` from the schema-builder hook: replace the top-level
property whose `id` matches, or append the new property when no top-level
`id` matches. -/
def updateProperty (props : List PropertyData) (pid : String)
    (updated : PropertyData) : List PropertyData :=
  if props.any (fun p => p.id == pid) then
    props.map (fun p => if p.id == pid then updated else p)
  else
    props ++ [updated]

/-- `deleteProperty` from the schema-builder hook: drop the top-level
properties whose `id` matches. -/
def deleteProperty (props : List PropertyData) (pid : String) : List PropertyData :=
  props.filter (fun p => p.id != pid)

/-- The id allocator (`generatePropertyId` in `id-generator.ts`) returns a
fresh `Date.now()`/`Math.random()`-based string on every call; the pure model
uses a constant, and all tree comparisons are up to id substitution. -/
def generatePropertyId : String := ""

theorem lookupField_jsize {fs : List (String × Json)} {k : String} {u : Json}
    (h : lookupField fs k = some u) : jsize u < jsizeF fs := by
  induction fs with
  | nil => simp [lookupField] at h
  | cons f rest ih =>
    obtain ⟨k2, v⟩ := f
    by_cases hk : k2 = k
    · simp [lookupField, hk] at h
      subst h
      simp [jsizeF]
      omega
    · simp [lookupField, hk] at h
      have := ih h
      simp [jsizeF]
      omega

theorem getField_jsize {v u : Json} {k : String} (h : getField v k = some u) :
    1 + jsize u < jsize v := by
  cases v <;> simp [getField] at h
  case obj fs =>
    have := lookupField_jsize h
    simp [jsize]
    omega

theorem jsizeF_enum_map (n : Nat) (xs : List Json) :
    jsizeF ((List.enumFrom n xs).map (fun ix => (toString ix.1, ix.2))) = jsizeA xs := by
  induction xs generalizing n with
  | nil => simp [jsizeF, jsizeA]
  | cons x rest ih => simp [List.enumFrom, jsizeF, jsizeA, ih]

theorem jsizeF_entriesOf (v : Json) : jsizeF (entriesOf v) < jsize v := by
  cases v <;> simp [entriesOf, jsize, jsizeF, List.enum, jsizeF_enum_map] <;> omega

/-- `typeof subschema.type === "string" ? subschema.type : "string"`. -/
def rawType (v : Json) : String :=
  match getField v "type" with
  | some (Json.str s) => s
  | _ => "string"

/-- `subschema.format === "filename"`. -/
def isFilenameFormat (v : Json) : Bool :=
  match getField v "format" with
  | some (Json.str s) => s == "filename"
  | _ => false

/-- `subschema.enum && Array.isArray(subschema.enum) ? subschema.enum :
undefined` (a JSON array is always truthy). -/
def enumOfField (v : Json) : Option (List Json) :=
  match getField v "enum" with
  | some (Json.arr xs) => some xs
  | _ => none

/-- The type tag the parser computes for a subschema: the string-typed `type`
field (default `"string"`), overridden to `"file"` when the decoded type is
`"string"` and `format` is `"filename"`. -/
def parsedType (v : Json) : String :=
  if rawType v == "string" && isFilenameFormat v then "file" else rawType v

/- The schema parser (`parseSchema` / `parseProperties` in
`schema-parser.ts`).  `parsePropertyEntry` is the body of the `map` callback
of `parseProperties` for one `(key, subschema)` entry; `parseProperties`
fuses the source's `filter(typeof === "object")` with the subsequent `map`;
`parseItems` and `parseChildren` are the two recursive blocks of that body
(array items and object children).  A JavaScript `TypeError` (member access
on `null`, which passes the `typeof` filter) is modelled as
`Except.error ()`. -/
mutual
def parseItems (ty : String) (v : Json) : Except Unit (Option PropertyData) :=
  if ty == "array" then
    match hit : getField v "items" with
    | some it =>
        if it.truthy && typeofObject it && !(isJsonArray it) then
          match parseProperties [("item", it)] [] with
          | .error e => .error e
          | .ok ps => .ok (ps.find? (fun p => p.key == "item"))
        else .ok none
    | none => .ok none
  else .ok none
termination_by 2 * jsize v
decreasing_by
  have := getField_jsize hit
  simp [jsizeF]
  omega
def parseChildren (v : Json) : Except Unit (Option (List PropertyData)) :=
  match hpv : getField v "properties" with
  | some pv =>
      if pv.truthy && typeofObject pv then
        match parseProperties (entriesOf pv) (reqListOf v) with
        | .error e => .error e
        | .ok cs => .ok (some cs)
      else .ok none
  | none => .ok none
termination_by 2 * jsize v
decreasing_by
  have h1 := getField_jsize hpv
  have h2 := jsizeF_entriesOf pv
  omega
def parsePropertyEntry (key : String) (v : Json) (requiredList : List Json) :
    Except Unit PropertyData :=
  if v == Json.null then
    .error ()
  else
    let ty := if rawType v == "string" && isFilenameFormat v then "file" else rawType v
    match parseItems ty v with
    | .error e => .error e
    | .ok items =>
      match parseChildren v with
      | .error e => .error e
      | .ok children =>
        .ok (PropertyData.mk generatePropertyId key
              (requiredList.contains (Json.str key)) ty
              (strField v "title") (strField v "description")
              (getField v "minLength") (getField v "maxLength")
              (truthyOpt (getField v "pattern"))
              (enumOfField v)
              (getField v "minimum") (getField v "maximum")
              (getField v "minItems") (getField v "maxItems")
              (truthyOpt (getField v "uniqueItems"))
              items children)
termination_by 2 * jsize v + 1
decreasing_by
  · omega
  · omega
def parseProperties : List (String × Json) → List Json → Except Unit (List PropertyData)
  | [], _ => .ok []
  | (k, v) :: rest, req =>
      if typeofObject v then
        match parsePropertyEntry k v req with
        | .error e => .error e
        | .ok p =>
          match parseProperties rest req with
          | .error e => .error e
          | .ok ps => .ok (p :: ps)
      else parseProperties rest req
termination_by l _ => 2 * jsizeF l
decreasing_by
  all_goals (simp [jsizeF] <;> omega)
end

/-- `parseSchema` from `schema-parser.ts`. -/
def parseSchema (schema : Json) : Except Unit ParsedSchema :=
  if schema == Json.null then
    .error ()
  else
    let metadata :=
      if truthyField schema "title" || truthyField schema "description"
          || truthyField schema "version" then
        some ⟨strFieldD schema "title" "", strFieldD schema "description" "",
              strFieldD schema "version" "1.0.0"⟩
      else none
    match getField schema "properties" with
    | some pv =>
        if pv.truthy && typeofObject pv then
          match parseProperties (entriesOf pv) (reqListOf schema) with
          | .error e => .error e
          | .ok ps => .ok ⟨ps, metadata⟩
        else .ok ⟨[], metadata⟩
    | none => .ok ⟨[], metadata⟩

/-! ### Characterization of one parsed entry -/

theorem parsePropertyEntry_ok_elim {k : String} {v : Json} {req : List Json}
    {p : PropertyData} (hok : parsePropertyEntry k v req = Except.ok p) :
    ∃ items children,
      parseItems (parsedType v) v = Except.ok items
      ∧ parseChildren v = Except.ok children
      ∧ p = PropertyData.mk generatePropertyId k (req.contains (Json.str k))
          (parsedType v) (strField v "title") (strField v "description")
          (getField v "minLength") (getField v "maxLength")
          (truthyOpt (getField v "pattern")) (enumOfField v)
          (getField v "minimum") (getField v "maximum")
          (getField v "minItems") (getField v "maxItems")
          (truthyOpt (getField v "uniqueItems")) items children := by
  rw [parsePropertyEntry] at hok
  cases hty : (rawType v == "string" && isFilenameFormat v) with
  | true =>
    simp only [parsedType, hty, eq_self_iff_true, if_true] at hok ⊢
    repeat' split at hok
    all_goals
      first
        | exact Except.noConfusion hok
        | (simp only [Except.ok.injEq] at hok; subst hok;
           refine ⟨_, _, ?_, ?_, rfl⟩ <;> assumption)
  | false =>
    simp only [parsedType, hty, Bool.false_eq_true, if_false] at hok ⊢
    repeat' split at hok
    all_goals
      first
        | exact Except.noConfusion hok
        | (simp only [Except.ok.injEq] at hok; subst hok;
           refine ⟨_, _, ?_, ?_, rfl⟩ <;> assumption)

theorem parsePropertyEntry_ok_intro (k : String) {v : Json} (req : List Json)
    {items : Option PropertyData} {children : Option (List PropertyData)}
    (hnn : (v == Json.null) = false)
    (hitems : parseItems (parsedType v) v = Except.ok items)
    (hchildren : parseChildren v = Except.ok children) :
    parsePropertyEntry k v req
      = Except.ok (PropertyData.mk generatePropertyId k
          (req.contains (Json.str k)) (parsedType v)
          (strField v "title") (strField v "description")
          (getField v "minLength") (getField v "maxLength")
          (truthyOpt (getField v "pattern")) (enumOfField v)
          (getField v "minimum") (getField v "maximum")
          (getField v "minItems") (getField v "maxItems")
          (truthyOpt (getField v "uniqueItems")) items children) := by
  rw [parsePropertyEntry, hnn]
  cases hty : (rawType v == "string" && isFilenameFormat v) with
  | true =>
    simp only [parsedType, hty, eq_self_iff_true, if_true, Bool.false_eq_true,
               if_false] at hitems ⊢
    rw [hitems, hchildren]
  | false =>
    simp only [parsedType, hty, Bool.false_eq_true, if_false] at hitems ⊢
    rw [hitems, hchildren]

theorem parseItems_ok_cases {ty : String} {v : Json} {items : Option PropertyData}
    (h : parseItems ty v = Except.ok items) :
    items = none
    ∨ ∃ it ps, getField v "items" = some it
        ∧ (it.truthy && typeofObject it && !(isJsonArray it)) = true
        ∧ parseProperties [("item", it)] [] = Except.ok ps
        ∧ items = ps.find? (fun q => q.key == "item") := by
  rw [parseItems] at h
  split at h
  · split at h
    · rename_i it hit
      split at h
      · split at h
        · exact Except.noConfusion h
        · rename_i ps hps
          simp only [Except.ok.injEq] at h
          exact Or.inr ⟨it, ps, hit, by assumption, hps, h.symm⟩
      · simp only [Except.ok.injEq] at h
        exact Or.inl h.symm
    · simp only [Except.ok.injEq] at h
      exact Or.inl h.symm
  · simp only [Except.ok.injEq] at h
    exact Or.inl h.symm

theorem parseChildren_ok_cases {v : Json} {children : Option (List PropertyData)}
    (h : parseChildren v = Except.ok children) :
    children = none
    ∨ ∃ pv cs, getField v "properties" = some pv
        ∧ (pv.truthy && typeofObject pv) = true
        ∧ parseProperties (entriesOf pv) (reqListOf v) = Except.ok cs
        ∧ children = some cs := by
  rw [parseChildren] at h
  split at h
  · rename_i pv hpv
    split at h
    · split at h
      · exact Except.noConfusion h
      · rename_i cs hcs
        simp only [Except.ok.injEq] at h
        exact Or.inr ⟨pv, cs, hpv, by assumption, hcs, h.symm⟩
    · simp only [Except.ok.injEq] at h
      exact Or.inl h.symm
  · simp only [Except.ok.injEq] at h
    exact Or.inl h.symm

/-! ### Basic lemmas about field lookup and the generator's field lists -/

theorem getField_obj (fs : List (String × Json)) (k : String) :
    getField (Json.obj fs) k = lookupField fs k := rfl

theorem lookupField_nil (k : String) : lookupField [] k = none := rfl

theorem lookupField_append_some {l1 : List (String × Json)} {k : String} {v : Json}
    (h : lookupField l1 k = some v) (l2 : List (String × Json)) :
    lookupField (l1 ++ l2) k = some v := by
  induction l1 with
  | nil => simp [lookupField] at h
  | cons f rest ih =>
    obtain ⟨k2, w⟩ := f
    by_cases hk : k2 = k
    · simp [lookupField, hk] at h ⊢
      exact h
    · simp [lookupField, hk] at h ⊢
      exact ih h

theorem lookupField_append_none {l1 : List (String × Json)} {k : String}
    (h : lookupField l1 k = none) (l2 : List (String × Json)) :
    lookupField (l1 ++ l2) k = lookupField l2 k := by
  induction l1 with
  | nil => simp
  | cons f rest ih =>
    obtain ⟨k2, w⟩ := f
    by_cases hk : k2 = k
    · simp [lookupField, hk] at h
    · simp [lookupField, hk] at h ⊢
      exact ih h

theorem lookupField_optField_eq (k : String) (o : Option Json) :
    lookupField (optField k o) k = o := by
  cases o <;> simp [optField, lookupField]

theorem lookupField_optField_ne {n k : String} (h : ¬ n = k) (o : Option Json) :
    lookupField (optField n o) k = none := by
  cases o <;> simp [optField, lookupField, h]

theorem lookupField_setField_self (fs : List (String × Json)) (k : String) (v : Json) :
    lookupField (setField fs k v) k = some v := by
  induction fs with
  | nil => simp [setField, lookupField]
  | cons f rest ih =>
    obtain ⟨k2, w⟩ := f
    by_cases hk : k2 = k
    · simp [setField, hk, lookupField]
    · simp [setField, hk, lookupField, ih]

theorem setField_not_mem {fs : List (String × Json)} {k : String}
    (h : ∀ f ∈ fs, f.1 ≠ k) (v : Json) : setField fs k v = fs ++ [(k, v)] := by
  induction fs with
  | nil => simp [setField]
  | cons f rest ih =>
    obtain ⟨k2, w⟩ := f
    have hk : k2 ≠ k := h (k2, w) (by simp)
    simp [setField, hk]
    exact ih (fun f hf => h f (by simp [hf]))

/-- C7: generating from the single integer property `age` (required, minimum 0,
maximum 120) with metadata `title = "T"` and empty description/version, with
metadata included, yields exactly
`{type:"object", title:"T", properties:{age:{type:"integer", minimum:0,
maximum:120}}, required:["age"]}`: the numeric bound `0` is emitted (presence,
not truthiness, decides) and the empty metadata fields are omitted. -/
theorem generate_concrete_age_example :
    generateSchema
      [PropertyData.mk "p1" "age" true "integer" none none none none none none
         (some (Json.num 0)) (some (Json.num 120)) none none none none none]
      (some ⟨"T", "", ""⟩) true
    = Json.obj [("type", Json.str "object"), ("title", Json.str "T"),
        ("properties", Json.obj [("age", Json.obj [("type", Json.str "integer"),
          ("minimum", Json.num 0), ("maximum", Json.num 120)])]),
        ("required", Json.arr [Json.str "age"])] := by
  simp [generateSchema, metaFieldsOf, buildProperties, buildPropsAux, buildPropFields,
        setField, requiredKeys, optField, gateStr, gateEnum, truthyOpt,
        PropertyData.key, PropertyData.required]

theorem buildPropsAux_filter_key (props : List PropertyData) :
    ∀ acc, buildPropsAux acc (props.filter (fun p => p.key != "")) = buildPropsAux acc props := by
  induction props with
  | nil => intro acc; rfl
  | cons p rest ih =>
    intro acc
    by_cases hk : p.key = "" <;> simp [List.filter_cons, hk, buildPropsAux, ih]

theorem requiredKeys_filter_key (props : List PropertyData) :
    requiredKeys (props.filter (fun p => p.key != "")) = requiredKeys props := by
  induction props with
  | nil => rfl
  | cons p rest ih =>
    by_cases hk : p.key = "" <;>
      simp [requiredKeys, List.filter_cons, hk] <;>
      simpa [requiredKeys] using ih

/-- C6: a property with an empty key contributes nothing to the generated
document — generation is unchanged by deleting all empty-key properties, both
for the whole document and for the properties map; concretely, a tree with one
empty-key property and one property keyed `"a"` generates a document whose
properties map has exactly the entry `"a"`. -/
theorem empty_key_contributes_nothing :
    (∀ props metadata includeMetadata,
        generateSchema props metadata includeMetadata
          = generateSchema (props.filter (fun p => p.key != "")) metadata includeMetadata)
    ∧ (∀ props, buildProperties props = buildProperties (props.filter (fun p => p.key != "")))
    ∧ generateSchema
        [PropertyData.mk "p1" "" false "string" none none none none none none
           none none none none none none none,
         PropertyData.mk "p2" "a" false "string" none none none none none none
           none none none none none none none]
        none true
      = Json.obj [("type", Json.str "object"),
          ("properties", Json.obj [("a", Json.obj [("type", Json.str "string")])])] := by
  refine ⟨?_, ?_, ?_⟩
  · intro props metadata includeMetadata
    simp [generateSchema, buildProperties, buildPropsAux_filter_key, requiredKeys_filter_key]
  · intro props
    simp [buildProperties, buildPropsAux_filter_key]
  · simp [generateSchema, metaFieldsOf_none, buildProperties, buildPropsAux,
          buildPropFields, setField, requiredKeys, optField, gateStr, gateEnum,
          truthyOpt, PropertyData.key, PropertyData.required]

/-- First-some choice on optional lookups (`lookupField` over `++`). -/
def optOr : Option Json → Option Json → Option Json
  | some v, _ => some v
  | none, b => b

theorem lookupField_append (l1 l2 : List (String × Json)) (k : String) :
    lookupField (l1 ++ l2) k = optOr (lookupField l1 k) (lookupField l2 k) := by
  induction l1 with
  | nil => simp [lookupField, optOr]
  | cons f rest ih =>
    obtain ⟨k2, w⟩ := f
    by_cases hk : k2 = k <;> simp [lookupField, hk, optOr, ih]

theorem lookupField_ite (c : Prop) [Decidable c] (l1 l2 : List (String × Json)) (k : String) :
    lookupField (if c then l1 else l2) k = if c then lookupField l1 k else lookupField l2 k := by
  split <;> rfl

theorem optOr_some (v : Json) (b : Option Json) : optOr (some v) b = some v := rfl

theorem optOr_none (b : Option Json) : optOr none b = b := rfl

theorem optOr_none_right (a : Option Json) : optOr a none = a := by
  cases a <;> rfl

theorem lookupField_metaFieldsOf_ne (includeMetadata : Bool) (metadata : Option SchemaMetadata)
    {k : String} (h1 : "title" ≠ k) (h2 : "description" ≠ k) (h3 : "version" ≠ k) :
    lookupField (metaFieldsOf includeMetadata metadata) k = none := by
  cases includeMetadata <;> cases metadata <;>
    simp [metaFieldsOf, lookupField_append, lookupField_ite, lookupField, optOr, h1, h2, h3]

/-- C5: the `required` array of the generated document holds exactly the keys
of the input properties whose required flag is set and whose key is non-empty,
in sequence order, and is omitted entirely when that list is empty; the
fragment of an object-typed property carries a `required` array computed the
same way from its children (and no other fragment carries one). -/
theorem required_array_characterization :
    (∀ props, requiredKeys props
        = (props.filter (fun p => p.required && p.key != "")).map PropertyData.key)
    ∧ (∀ props metadata includeMetadata,
        getField (generateSchema props metadata includeMetadata) "required"
          = (if requiredKeys props = [] then none
             else some (Json.arr ((requiredKeys props).map Json.str))))
    ∧ (∀ p : PropertyData, lookupField (buildPropFields p) "required"
          = (if p.type = "object" then
               match p.children with
               | some cs =>
                   if cs.length > 0 then
                     (if requiredKeys cs = [] then none
                      else some (Json.arr ((requiredKeys cs).map Json.str)))
                   else none
               | none => none
             else none)) := by
  refine ⟨fun _ => rfl, ?_, ?_⟩
  · intro props metadata includeMetadata
    have hmeta := lookupField_metaFieldsOf_ne includeMetadata metadata
      (k := "required") (by decide) (by decide) (by decide)
    by_cases h : requiredKeys props = [] <;>
      simp [generateSchema, getField_obj, lookupField_append, lookupField_ite,
            lookupField, optOr, hmeta, h]
  · intro p
    cases p with
    | mk i k r ty ti d mnl mxl pat en mn mx mni mxi u it ch =>
    by_cases hty : ty = "object"
    · subst hty
      rcases it with _ | itp <;> rcases ch with _ | cs <;>
        first
          | (by_cases hcs : cs.length > 0 <;> by_cases hreq : requiredKeys cs = [] <;>
               simp [buildPropFields, hcs, hreq, lookupField_append, lookupField_ite,
                     lookupField, optOr, lookupField_optField_ne, List.length_pos,
                     PropertyData.type, PropertyData.children])
          | simp [buildPropFields, lookupField_append, lookupField_ite, lookupField,
                  optOr, lookupField_optField_ne, PropertyData.type, PropertyData.children]
    · have hty2 : (ty == "object") = false := by simp [hty]
      rcases it with _ | itp <;> rcases ch with _ | cs <;>
        simp [buildPropFields, lookupField_append, lookupField_ite, lookupField, optOr,
              lookupField_optField_ne, hty, hty2, PropertyData.type, PropertyData.children]

/-- C8 counterexample: the tree `[parent]` contains a (nested) node with id
`"b"`, yet `updateProperty` on id `"b"` does not replace that node — it
appends the new node at the top level, leaving the old node in place.  This
falsifies the claim that for every tree the node matching the id is replaced
at its position. -/
theorem update_nested_id_appends_counterexample :
    occursIdL "b"
      [PropertyData.mk "a" "parent" false "object" none none none none none none
         none none none none none none
         (some [PropertyData.mk "b" "child" false "string" none none none none
            none none none none none none none none none])] = true
    ∧ updateProperty
        [PropertyData.mk "a" "parent" false "object" none none none none none none
           none none none none none none
           (some [PropertyData.mk "b" "child" false "string" none none none none
              none none none none none none none none none])]
        "b"
        (PropertyData.mk "c" "n" false "string" none none none none none none
           none none none none none none none)
      = [PropertyData.mk "a" "parent" false "object" none none none none none none
           none none none none none none
           (some [PropertyData.mk "b" "child" false "string" none none none none
              none none none none none none none none none]),
         PropertyData.mk "c" "n" false "string" none none none none none none
           none none none none none none none] := by
  constructor
  · simp [occursIdL, occursId, occursIdO, occursIdLO]
  · simp [updateProperty, PropertyData.id]

/-- C8 (amended): `updateProperty` searches only the top level of the tree:
when some top-level node's id matches, exactly the matching top-level nodes
are replaced in position and everything else is unchanged; when no top-level
id matches (even if a nested node carries that id), the new node is appended
at the top level — never an error. -/
theorem updateProperty_top_level (props : List PropertyData) (pid : String)
    (updated : PropertyData) :
    ((∃ p ∈ props, p.id = pid) →
        updateProperty props pid updated
          = props.map (fun p => if p.id = pid then updated else p))
    ∧ ((∀ p ∈ props, p.id ≠ pid) →
        updateProperty props pid updated = props ++ [updated]) := by
  constructor
  · intro h
    have hany : props.any (fun p => p.id == pid) = true := by
      obtain ⟨p, hp, hid⟩ := h
      exact List.any_eq_true.mpr ⟨p, hp, by simp [hid]⟩
    simp [updateProperty, hany]
  · intro h
    have hany : props.any (fun p => p.id == pid) = false := by
      simp only [List.any_eq_false]
      intro p hp
      simp [h p hp]
    simp [updateProperty, hany]

/-- Witness for the amended C8 theorem at concrete inputs: a matching
top-level id is replaced in place; an absent id causes an append. -/
theorem updateProperty_top_level_witness :
    updateProperty
        [PropertyData.mk "a" "k" false "string" none none none none none none
           none none none none none none none] "a"
        (PropertyData.mk "c" "n" false "string" none none none none none none
           none none none none none none none)
      = [PropertyData.mk "a" "k" false "string" none none none none none none
           none none none none none none none].map
          (fun p => if p.id = "a" then
            (PropertyData.mk "c" "n" false "string" none none none none none none
               none none none none none none none) else p)
    ∧ updateProperty
        [PropertyData.mk "a" "k" false "string" none none none none none none
           none none none none none none none] "z"
        (PropertyData.mk "c" "n" false "string" none none none none none none
           none none none none none none none)
      = [PropertyData.mk "a" "k" false "string" none none none none none none
           none none none none none none none]
        ++ [PropertyData.mk "c" "n" false "string" none none none none none none
              none none none none none none none] :=
  ⟨(updateProperty_top_level _ _ _).1
      ⟨PropertyData.mk "a" "k" false "string" none none none none none none
         none none none none none none none, by simp, by simp [PropertyData.id]⟩,
   (updateProperty_top_level _ _ _).2
      (by intro p hp; simp at hp; simp [hp, PropertyData.id])⟩

/-- C9 counterexample: deleting id `"b"` leaves both a tree whose only
occurrence of `"b"` is a nested child and a tree whose only occurrence is an
`items` node completely unchanged — the node is not removed and the `items`
reference is not cleared, falsifying the any-nesting-depth claim. -/
theorem delete_nested_id_inert_counterexample :
    occursIdL "b"
      [PropertyData.mk "a" "parent" false "object" none none none none none none
         none none none none none none
         (some [PropertyData.mk "b" "child" false "string" none none none none
            none none none none none none none none none])] = true
    ∧ deleteProperty
        [PropertyData.mk "a" "parent" false "object" none none none none none none
           none none none none none none
           (some [PropertyData.mk "b" "child" false "string" none none none none
              none none none none none none none none none])] "b"
      = [PropertyData.mk "a" "parent" false "object" none none none none none none
           none none none none none none
           (some [PropertyData.mk "b" "child" false "string" none none none none
              none none none none none none none none none])]
    ∧ occursIdL "b"
        [PropertyData.mk "a2" "arr" false "array" none none none none none none
           none none none none none
           (some (PropertyData.mk "b" "item" false "string" none none none none
              none none none none none none none none none)) none] = true
    ∧ deleteProperty
        [PropertyData.mk "a2" "arr" false "array" none none none none none none
           none none none none none
           (some (PropertyData.mk "b" "item" false "string" none none none none
              none none none none none none none none none)) none] "b"
      = [PropertyData.mk "a2" "arr" false "array" none none none none none none
           none none none none none
           (some (PropertyData.mk "b" "item" false "string" none none none none
              none none none none none none none none none)) none] := by
  refine ⟨?_, ?_, ?_, ?_⟩ <;>
    simp [occursIdL, occursId, occursIdO, occursIdLO, deleteProperty, PropertyData.id]

/-- C9 (amended): `deleteProperty` filters only the top level of the tree: it
removes exactly the top-level nodes whose id matches (keeping order), it never
touches nested children or `items` slots, and deleting an id absent from the
top level is a no-op. -/
theorem deleteProperty_top_level (props : List PropertyData) (pid : String) :
    deleteProperty props pid = props.filter (fun p => p.id ≠ pid)
    ∧ ((∀ p ∈ props, p.id ≠ pid) → deleteProperty props pid = props)
    ∧ (∀ p, p ∈ deleteProperty props pid ↔ (p ∈ props ∧ p.id ≠ pid)) := by
  have hfe : deleteProperty props pid = props.filter (fun p => p.id ≠ pid) := by
    simp only [deleteProperty]
    apply List.filter_congr
    intro p _
    by_cases h : p.id = pid <;> simp [h]
  refine ⟨hfe, ?_, ?_⟩
  · intro h
    rw [hfe]
    exact List.filter_eq_self.mpr (fun p hp => by simp [h p hp])
  · intro p
    rw [hfe]
    simp [List.mem_filter]

/-- Witness for the amended C9 theorem at a concrete input. -/
theorem deleteProperty_top_level_witness :
    deleteProperty
        [PropertyData.mk "a" "k" false "string" none none none none none none
           none none none none none none none] "z"
      = [PropertyData.mk "a" "k" false "string" none none none none none none
           none none none none none none none] :=
  (deleteProperty_top_level _ _).2.1
    (by intro p hp; simp at hp; simp [hp, PropertyData.id])

/-- C3: the claim that `parseSchema` never throws on JSON-valid objects is
right about the parser's intent (its `typeof`-filter exists precisely to guard
malformed entries) but wrong about the code: `typeof null === "object"` lets a
`null` properties-map entry through the filter, and the subsequent
`schema.type` member access throws a `TypeError`.  On
`{"properties": {"foo": null}}` the parser throws instead of returning a
result. -/
theorem parse_null_entry_throws :
    parseSchema (Json.obj [("properties", Json.obj [("foo", Json.null)])])
      = Except.error () := by
  simp [parseSchema, parseProperties, parsePropertyEntry, getField, lookupField,
        entriesOf, typeofObject, reqListOf, truthyField, Json.truthy,
        rawType, isFilenameFormat, enumOfField, instBEqJson, jeq]

/-- C4 counterexample: a properties-map entry whose value is the JSON array
`[]` — not a JSON object — is not skipped: parsing
`{"properties": {"foo": []}}` yields a tree with an entry for `foo` (a
string-typed property), because the `typeof`-based filter treats JavaScript
arrays as objects.  This falsifies "skips every properties-map entry whose
value is not an object". -/
theorem parse_array_entry_not_skipped_counterexample :
    parseSchema (Json.obj [("properties", Json.obj [("foo", Json.arr [])])])
      = Except.ok ⟨[PropertyData.mk "" "foo" false "string" none none none none
          none none none none none none none none none], none⟩ := by
  simp [parseSchema, parseProperties, parsePropertyEntry, parseItems, parseChildren,
        getField, lookupField, entriesOf, typeofObject, reqListOf, truthyField,
        truthyOpt, strField, Json.truthy, rawType, isFilenameFormat, enumOfField,
        generatePropertyId, instBEqJson, jeq]

/-- C4 (amended): the parser's entry filter is JavaScript's `typeof`-object
test: entries whose value is a primitive (boolean, number, or string) are
skipped — parsing is unchanged by removing them — so a boolean-schema entry
such as `"foo": true` yields no property for `foo` while the rest of the
document parses normally; and an array-typed subschema whose `items` is a
JSON array (tuple form) yields a property whose `items` field is absent.
(Array-valued entries, however, pass the `typeof` filter and produce a
default string-typed property, and `null` entries throw; see the
counterexample and the null-entry theorem.) -/
theorem parse_skips_primitive_entries_and_tuple_items :
    (∀ (l : List (String × Json)) (req : List Json),
        parseProperties l req
          = parseProperties (l.filter (fun e => typeofObject e.2)) req)
    ∧ (∀ (k : String) (v : Json) (req : List Json) (p : PropertyData) (a : List Json),
        getField v "items" = some (Json.arr a) →
        parsePropertyEntry k v req = Except.ok p →
        p.items = none)
    ∧ parseSchema (Json.obj [("properties",
          Json.obj [("foo", Json.bool true),
                    ("bar", Json.obj [("type", Json.str "number")])])])
        = Except.ok ⟨[PropertyData.mk "" "bar" false "number" none none none none
            none none none none none none none none none], none⟩ := by
  refine ⟨?_, ?_, ?_⟩
  · intro l req
    induction l with
    | nil => rfl
    | cons e rest ih =>
      obtain ⟨k, v⟩ := e
      by_cases ho : typeofObject v = true <;>
        simp [parseProperties, ho, List.filter_cons, ih]
  · intro k v req p a hitems hok
    obtain ⟨items, children, hit, hch, hp⟩ := parsePropertyEntry_ok_elim hok
    have hnone : items = none := by
      rcases parseItems_ok_cases hit with rfl | ⟨it, ps, hget, hguard, hps, hfind⟩
      · rfl
      · rw [hitems] at hget
        obtain rfl : Json.arr a = it := Option.some.inj hget
        simp [isJsonArray] at hguard
    rw [hp, hnone]
    simp [PropertyData.items]
  · simp [parseSchema, parseProperties, parsePropertyEntry, parseItems, parseChildren,
          getField, lookupField, entriesOf, typeofObject, reqListOf, truthyField,
          truthyOpt, strField, Json.truthy, rawType, isFilenameFormat, enumOfField,
          generatePropertyId, instBEqJson, jeq]

/-- Witness for the amended C4 theorem: a concrete array-typed subschema with
tuple-form `items` parses to a property whose `items` field is absent. -/
theorem parse_skips_primitive_entries_and_tuple_items_witness :
    (PropertyData.mk "" "a" false "array" none none none none none none
       none none none none none none none).items = none :=
  parse_skips_primitive_entries_and_tuple_items.2.1 "a"
    (Json.obj [("type", Json.str "array"),
       ("items", Json.arr [Json.obj [("type", Json.str "string")]])])
    []
    (PropertyData.mk "" "a" false "array" none none none none none none
       none none none none none none none)
    [Json.obj [("type", Json.str "string")]]
    (by simp [getField, lookupField])
    (by simp [parsePropertyEntry, parseItems, parseChildren, parseProperties,
              getField, lookupField, typeofObject, isJsonArray, reqListOf,
              Json.truthy, truthyOpt, strField, rawType, isFilenameFormat, enumOfField,
              generatePropertyId, instBEqJson, jeq])

theorem lookup_frag_type (p : PropertyData) :
    lookupField (buildPropFields p) "type"
      = some (Json.str (if p.type == "file" then "string" else p.type)) := by
  cases p with
  | mk i k r ty ti d mnl mxl pat en mn mx mni mxi u it ch =>
    rcases it with _ | itp <;> rcases ch with _ | cs <;>
      simp [buildPropFields, lookupField, PropertyData.type]

theorem lookup_frag_format (p : PropertyData) :
    lookupField (buildPropFields p) "format"
      = (if p.type == "file" then some (Json.str "filename") else none) := by
  cases p with
  | mk i k r ty ti d mnl mxl pat en mn mx mni mxi u it ch =>
    rcases it with _ | itp <;> rcases ch with _ | cs <;>
      simp [buildPropFields, lookupField_append, lookupField_ite, lookupField,
            optOr_some, optOr_none, optOr_none_right, lookupField_optField_ne,
            PropertyData.type, ite_self]

theorem parse_result_type_key {k : String} {v : Json} {req : List Json}
    {res : PropertyData} (hok : parsePropertyEntry k v req = Except.ok res) :
    res.type = parsedType v ∧ res.key = k := by
  obtain ⟨items, children, hit, hch, hp⟩ := parsePropertyEntry_ok_elim hok
  rw [hp]
  exact ⟨rfl, rfl⟩

/-- C2 counterexample: the `{type:"string", format:"filename"}` encoding is
not the generator's output for *every* file-typed property, and is not the
sole round-trip representation of `file`.  For an array property whose `items`
node is file-typed with an empty key, the items fallback
(`buildProperties([prop.items])[prop.items.key] || { type: prop.items.type }`,
`schema-generator.ts:88`) emits `{type:"file"}` verbatim: `buildProperties`
skips the empty key, the lookup misses, and the fallback copies the raw type
tag.  That fragment carries no `format` field, yet parsing it also yields a
property of type `"file"`, so `file` round-trips through a second encoding. -/
theorem file_items_fallback_counterexample :
    lookupField (buildPropFields (PropertyData.mk "i1" "a" false "array"
        none none none none none none none none none none none
        (some (PropertyData.mk "i2" "" false "file" none none none none none none
          none none none none none none none)) none)) "items"
      = some (Json.obj [("type", Json.str "file")])
    ∧ lookupField [("type", Json.str "file")] "format" = none
    ∧ parsePropertyEntry "doc" (Json.obj [("type", Json.str "file")]) []
        = Except.ok (PropertyData.mk generatePropertyId "doc" false "file"
            none none none none none none none none none none none none none) := by
  refine ⟨?_, ?_, ?_⟩
  · simp [buildPropFields, buildPropsAux, optField, gateStr, truthyOpt, gateEnum,
          setField, lookupField, lookupField_append, lookupField_ite, optOr,
          PropertyData.key, PropertyData.type]
  · simp [lookupField]
  · simp [parsePropertyEntry, parseItems, parseChildren, getField, lookupField,
          strField, truthyOpt, rawType, isFilenameFormat, enumOfField,
          instBEqJson, jeq]

/-- C2 (amended): along the property-fragment path (`buildPropFields`, used
for every property placed in a `properties` map and for items nodes whose own
fragment survives the key lookup) the `file` pseudo-type round-trips as
`{type:"string", format:"filename"}`: every file-typed property's fragment
carries `type:"string"` and `format:"filename"` (and is exactly that two-field
fragment when the property has no title/description); parsing that fragment
yields a property of type `"file"` again; and among `buildPropFields`
fragments the parser decodes type `"file"` exactly for the file-typed
properties.  This encoding is however not the sole round-trip representation:
the items fallback can emit `{type:"file"}` verbatim, which also parses back
to `file` (see the counterexample). -/
theorem file_type_roundtrip :
    (∀ p : PropertyData, p.type = "file" →
        lookupField (buildPropFields p) "type" = some (Json.str "string")
        ∧ lookupField (buildPropFields p) "format" = some (Json.str "filename"))
    ∧ (∀ p : PropertyData, p.type = "file" → p.title = none → p.description = none →
        buildPropFields p = [("type", Json.str "string"), ("format", Json.str "filename")])
    ∧ (∀ (k : String) (req : List Json),
        parsePropertyEntry k
            (Json.obj [("type", Json.str "string"), ("format", Json.str "filename")]) req
          = Except.ok (PropertyData.mk generatePropertyId k
              (req.contains (Json.str k)) "file" none none none none none none
              none none none none none none none))
    ∧ (∀ (p : PropertyData) (k : String) (req : List Json) (res : PropertyData),
        parsePropertyEntry k (Json.obj (buildPropFields p)) req = Except.ok res →
        (res.type = "file" ↔ p.type = "file")) := by
  refine ⟨?_, ?_, ?_, ?_⟩
  · intro p hty
    rw [lookup_frag_type, lookup_frag_format, hty]
    simp
  · intro p hty hti hd
    cases p with
    | mk i k r ty ti d mnl mxl pat en mn mx mni mxi u it ch =>
      simp only [PropertyData.type] at hty
      simp only [PropertyData.title] at hti
      simp only [PropertyData.description] at hd
      subst hty; subst hti; subst hd
      rcases it with _ | itp <;> rcases ch with _ | cs <;>
        simp [buildPropFields, gateStr, optField]
  · intro k req
    simp [parsePropertyEntry, parseItems, parseChildren, getField, lookupField,
          strField, truthyOpt, rawType, isFilenameFormat, enumOfField,
          instBEqJson, jeq]
  · intro p k req res hok
    have htk := (parse_result_type_key hok).1
    have hty : parsedType (Json.obj (buildPropFields p))
        = (if p.type = "file" then "file" else p.type) := by
      simp only [parsedType, getField_obj, rawType, isFilenameFormat,
                 lookup_frag_type, lookup_frag_format]
      by_cases hf : p.type = "file" <;> simp [hf]
    rw [htk, hty]
    by_cases hf : p.type = "file" <;> simp [hf]

/-- Witness for C2 at a concrete file-typed property and concrete fragment. -/
theorem file_type_roundtrip_witness :
    (lookupField (buildPropFields (PropertyData.mk "1" "f" false "file" none none
        none none none none none none none none none none none)) "type"
      = some (Json.str "string")
    ∧ lookupField (buildPropFields (PropertyData.mk "1" "f" false "file" none none
        none none none none none none none none none none none)) "format"
      = some (Json.str "filename"))
    ∧ parsePropertyEntry "x"
        (Json.obj [("type", Json.str "string"), ("format", Json.str "filename")]) []
      = Except.ok (PropertyData.mk generatePropertyId "x"
          (List.contains [] (Json.str "x")) "file" none none none none none none
          none none none none none none none)
    ∧ ((PropertyData.mk "" "f" false "file" none none none none none none
          none none none none none none none).type = "file"
        ↔ (PropertyData.mk "1" "f" false "file" none none none none none none
          none none none none none none none).type = "file") :=
  ⟨file_type_roundtrip.1
      (PropertyData.mk "1" "f" false "file" none none none none none none
        none none none none none none none) rfl,
   file_type_roundtrip.2.2.1 "x" [],
   file_type_roundtrip.2.2.2
      (PropertyData.mk "1" "f" false "file" none none none none none none
        none none none none none none none) "f" []
      (PropertyData.mk "" "f" false "file" none none none none none none
        none none none none none none none)
      (by simp [parsePropertyEntry, parseItems, parseChildren, buildPropFields,
                gateStr, optField, getField, lookupField, strField, truthyOpt,
                rawType, isFilenameFormat, enumOfField, generatePropertyId,
                typeofObject, Json.truthy, reqListOf, instBEqJson, jeq])⟩

/- Every property sitting in an `items` slot, anywhere in a tree, has key
`"item"` (recursively). -/
mutual
def itemsOk : PropertyData → Bool
  | PropertyData.mk _ _ _ _ _ _ _ _ _ _ _ _ _ _ _ it ch =>
      itemsOkO it && itemsOkLO ch
def itemsOkO : Option PropertyData → Bool
  | none => true
  | some p => p.key == "item" && itemsOk p
def itemsOkL : List PropertyData → Bool
  | [] => true
  | p :: ps => itemsOk p && itemsOkL ps
def itemsOkLO : Option (List PropertyData) → Bool
  | none => true
  | some l => itemsOkL l
end

theorem itemsOkL_mem {l : List PropertyData} (h : itemsOkL l = true)
    {p : PropertyData} (hp : p ∈ l) : itemsOk p = true := by
  induction l with
  | nil => cases hp
  | cons q rest ih =>
    simp [itemsOkL] at h
    rcases List.mem_cons.mp hp with rfl | hmem
    · exact h.1
    · exact ih h.2 hmem

theorem jsize_pos (v : Json) : 1 ≤ jsize v := by
  cases v <;> simp [jsize]

theorem parse_itemsOk_aux : ∀ n : Nat,
    (∀ (l : List (String × Json)) (req : List Json) (out : List PropertyData),
        jsizeF l ≤ n → parseProperties l req = Except.ok out → itemsOkL out = true)
    ∧ (∀ (k : String) (v : Json) (req : List Json) (p : PropertyData),
        jsize v ≤ n → parsePropertyEntry k v req = Except.ok p → itemsOk p = true) := by
  intro n
  induction n using Nat.strong_induction_on with
  | _ n ih =>
    constructor
    · intro l req out hsz hok
      match l with
      | [] =>
        simp [parseProperties] at hok
        subst hok
        rfl
      | (k, v) :: rest =>
        rw [parseProperties] at hok
        have hsize : jsizeF ((k, v) :: rest) = 1 + jsize v + jsizeF rest := rfl
        have hvpos : 1 ≤ jsize v := jsize_pos v
        by_cases ho : typeofObject v = true
        · simp only [ho, if_true] at hok
          split at hok
          · exact Except.noConfusion hok
          · rename_i p hp
            split at hok
            · exact Except.noConfusion hok
            · rename_i ps hps
              simp only [Except.ok.injEq] at hok
              subst hok
              have h1 := (ih (jsize v) (by omega)).2 k v req p le_rfl hp
              have h2 := (ih (jsizeF rest) (by omega)).1 rest req ps le_rfl hps
              simp [itemsOkL, h1, h2]
        · simp only [ho, if_false] at hok
          exact (ih (jsizeF rest) (by omega)).1 rest req out le_rfl hok
    · intro k v req p hsz hok
      obtain ⟨items, children, hit, hch, hp⟩ := parsePropertyEntry_ok_elim hok
      have hOkItems : itemsOkO items = true := by
        rcases parseItems_ok_cases hit with rfl | ⟨it, ps, hget, hguard, hps, hfind⟩
        · rfl
        · subst hfind
          cases hfind2 : List.find? (fun q => q.key == "item") ps with
          | none => simp [itemsOkO, hfind2]
          | some q =>
            have hkey := List.find?_some hfind2
            have hmem := List.mem_of_find?_eq_some hfind2
            have hb : jsizeF [("item", it)] < n := by
              have h1 := getField_jsize hget
              have h2 : jsizeF [("item", it)] = 1 + jsize it + 0 := rfl
              omega
            have hOkPs := (ih (jsizeF [("item", it)]) hb).1
              [("item", it)] [] ps le_rfl hps
            simp [itemsOkO, hfind2, hkey, itemsOkL_mem hOkPs hmem]
      have hOkChildren : itemsOkLO children = true := by
        rcases parseChildren_ok_cases hch with rfl | ⟨pv, cs, hget, hguard, hcs, rfl⟩
        · rfl
        · have hb : jsizeF (entriesOf pv) < n := by
            have h1 := getField_jsize hget
            have h2 := jsizeF_entriesOf pv
            omega
          have := (ih (jsizeF (entriesOf pv)) hb).1
            (entriesOf pv) (reqListOf v) cs le_rfl hcs
          simpa [itemsOkLO] using this
      rw [hp]
      simp [itemsOk, hOkItems, hOkChildren]

/-- C10: every property the parser places in an `items` slot, at any depth,
has the fixed key `"item"` (the parser wraps the items subschema in a
synthetic one-entry map under that name), for every input document. -/
theorem parse_items_key_invariant (doc : Json) (r : ParsedSchema)
    (hok : parseSchema doc = Except.ok r) : itemsOkL r.properties = true := by
  rw [parseSchema] at hok
  by_cases hnull : (doc == Json.null) = true
  · simp only [hnull, if_true] at hok
    exact Except.noConfusion hok
  · rw [Bool.not_eq_true] at hnull
    simp only [hnull, Bool.false_eq_true, if_false] at hok
    rcases hpv : getField doc "properties" with _ | pv
    · rw [hpv] at hok
      simp only [Except.ok.injEq] at hok
      rw [← hok]
      rfl
    · rw [hpv] at hok
      by_cases hg : (pv.truthy && typeofObject pv) = true
      · simp only [hg, if_true] at hok
        rcases hps : parseProperties (entriesOf pv) (reqListOf doc) with e | ps
        · rw [hps] at hok
          exact Except.noConfusion hok
        · rw [hps] at hok
          simp only [Except.ok.injEq] at hok
          rw [← hok]
          exact (parse_itemsOk_aux (jsizeF (entriesOf pv))).1
            (entriesOf pv) (reqListOf doc) ps le_rfl hps
      · rw [Bool.not_eq_true] at hg
        simp only [hg, Bool.false_eq_true, if_false] at hok
        simp only [Except.ok.injEq] at hok
        rw [← hok]
        rfl

/-- Witness for C10 at a concrete document with a nested `items` subschema. -/
theorem parse_items_key_invariant_witness :
    itemsOkL [PropertyData.mk "" "a" false "array" none none none none none none
      none none none none none
      (some (PropertyData.mk "" "item" false "string" none none none none none
        none none none none none none none none)) none] = true :=
  parse_items_key_invariant
    (Json.obj [("properties", Json.obj [("a", Json.obj [("type", Json.str "array"),
      ("items", Json.obj [("type", Json.str "string")])])])])
    ⟨[PropertyData.mk "" "a" false "array" none none none none none none
        none none none none none
        (some (PropertyData.mk "" "item" false "string" none none none none none
          none none none none none none none none)) none], none⟩
    (by simp [parseSchema, parseProperties, parsePropertyEntry, parseItems,
              parseChildren, getField, lookupField, entriesOf, typeofObject,
              isJsonArray, reqListOf, truthyField, truthyOpt, strField, Json.truthy,
              rawType, isFilenameFormat, enumOfField, generatePropertyId,
              PropertyData.key, instBEqJson, jeq])

/-- C1 counterexample: the round trip is not the identity on every metadata
record.  Metadata `{title:"T", description:"", version:""}` — paired with the
(vacuously supported) empty tree — generates a document carrying only `title`,
and parsing it yields `version = "1.0.0"`, not the original `""`: the claim
"a metadata record equal to the original" fails. -/
theorem metadata_version_roundtrip_counterexample :
    parseSchema (generateSchema [] (some ⟨"T", "", ""⟩) true)
      = Except.ok ⟨[], some ⟨"T", "", "1.0.0"⟩⟩
    ∧ (⟨"T", "", "1.0.0"⟩ : SchemaMetadata) ≠ ⟨"T", "", ""⟩ := by
  constructor
  · simp [generateSchema, metaFieldsOf, buildProperties, buildPropsAux, requiredKeys,
          parseSchema, getField, lookupField, truthyField, strFieldD, Json.truthy,
          instBEqJson, jeq]
  · simp

/-! ### The canonical (fully supported) class of trees, on which the round
trip is exact -/

/-- Pairwise distinctness of a key list. -/
def keysDistinct : List String → Bool
  | [] => true
  | k :: ks => !(ks.contains k) && keysDistinct ks

/-- Membership of a type tag in the modeled set. -/
def typeOkB (ty : String) : Bool :=
  ty == "string" || ty == "number" || ty == "integer" || ty == "boolean"
  || ty == "object" || ty == "array" || ty == "null" || ty == "file"

/-- A truthiness-gated optional field survives generation iff it is absent or
truthy. -/
def optTruthyOk : Option Json → Bool
  | none => true
  | some j => j.truthy

/-- An enum list survives generation iff it is absent or non-empty. -/
def enumFieldOk : Option (List Json) → Bool
  | none => true
  | some l => !l.isEmpty

/- `canonicalP p`: the tree rooted at `p` uses only constructs the generator
emits and the parser recovers verbatim: non-empty key, no empty-string title/
description (truthiness would drop them), a modeled type tag, constraint
fields only on the type they are gated by (with truthy `pattern`/`uniqueItems`
and non-empty `enum`), an `items` child only on arrays (keyed `"item"`, not
required, itself canonical), and children only on objects (non-empty, all
canonical, distinct keys). -/
mutual
def canonicalP : PropertyData → Bool
  | PropertyData.mk _ key _ ty ti d mnl mxl pat en mn mx mni mxi u it ch =>
    key != "" && ti != some "" && d != some "" && typeOkB ty
    && (if ty == "string" then optTruthyOk pat && enumFieldOk en
        else mnl.isNone && mxl.isNone && pat.isNone && en.isNone)
    && (if ty == "number" || ty == "integer" then true else mn.isNone && mx.isNone)
    && (if ty == "array" then optTruthyOk u && itemsCanon it
        else mni.isNone && mxi.isNone && u.isNone && it.isNone)
    && (if ty == "object" then childrenCanon ch else ch.isNone)
termination_by p => psize p
decreasing_by
  all_goals (simp [psize, psizeO, psizeL, psizeLO] <;> omega)
def itemsCanon : Option PropertyData → Bool
  | none => true
  | some itp => itp.key == "item" && !itp.required && canonicalP itp
termination_by o => psizeO o
decreasing_by
  all_goals (simp [psize, psizeO, psizeL, psizeLO] <;> omega)
def childrenCanon : Option (List PropertyData) → Bool
  | none => true
  | some cs => !cs.isEmpty && canonicalL cs && keysDistinct (cs.map PropertyData.key)
termination_by o => psizeLO o
decreasing_by
  all_goals (simp [psize, psizeO, psizeL, psizeLO] <;> omega)
def canonicalL : List PropertyData → Bool
  | [] => true
  | p :: ps => canonicalP p && canonicalL ps
termination_by l => psizeL l
decreasing_by
  all_goals (simp [psize, psizeO, psizeL, psizeLO] <;> omega)
end

/-- Re-assign the `required` flag of a node (the parser recomputes it from the
enclosing required list). -/
def setReq : PropertyData → Bool → PropertyData
  | PropertyData.mk i k _ ty ti d mnl mxl pat en mn mx mni mxi u it ch, r =>
      PropertyData.mk i k r ty ti d mnl mxl pat en mn mx mni mxi u it ch

/-! ### Field-by-field shape of a generated fragment -/

theorem lookup_frag_title (p : PropertyData) :
    lookupField (buildPropFields p) "title" = gateStr p.title := by
  cases p with
  | mk i k r ty ti d mnl mxl pat en mn mx mni mxi u it ch =>
    rcases it with _ | itp <;> rcases ch with _ | cs <;>
      simp [buildPropFields, lookupField_append, lookupField_ite, lookupField,
            optOr_some, optOr_none, optOr_none_right, lookupField_optField_eq,
            lookupField_optField_ne, PropertyData.title, ite_self]

theorem lookup_frag_description (p : PropertyData) :
    lookupField (buildPropFields p) "description" = gateStr p.description := by
  cases p with
  | mk i k r ty ti d mnl mxl pat en mn mx mni mxi u it ch =>
    rcases it with _ | itp <;> rcases ch with _ | cs <;>
      simp [buildPropFields, lookupField_append, lookupField_ite, lookupField,
            optOr_some, optOr_none, optOr_none_right, lookupField_optField_eq,
            lookupField_optField_ne, PropertyData.description, ite_self]

theorem lookup_frag_minLength (p : PropertyData) :
    lookupField (buildPropFields p) "minLength"
      = (if p.type == "string" then p.minLength else none) := by
  cases p with
  | mk i k r ty ti d mnl mxl pat en mn mx mni mxi u it ch =>
    rcases it with _ | itp <;> rcases ch with _ | cs <;>
      simp [buildPropFields, lookupField_append, lookupField_ite, lookupField,
            optOr_some, optOr_none, optOr_none_right, lookupField_optField_eq,
            lookupField_optField_ne, PropertyData.type, PropertyData.minLength,
            ite_self]

theorem lookup_frag_maxLength (p : PropertyData) :
    lookupField (buildPropFields p) "maxLength"
      = (if p.type == "string" then p.maxLength else none) := by
  cases p with
  | mk i k r ty ti d mnl mxl pat en mn mx mni mxi u it ch =>
    rcases it with _ | itp <;> rcases ch with _ | cs <;>
      simp [buildPropFields, lookupField_append, lookupField_ite, lookupField,
            optOr_some, optOr_none, optOr_none_right, lookupField_optField_eq,
            lookupField_optField_ne, PropertyData.type, PropertyData.maxLength,
            ite_self]

theorem lookup_frag_pattern (p : PropertyData) :
    lookupField (buildPropFields p) "pattern"
      = (if p.type == "string" then truthyOpt p.pattern else none) := by
  cases p with
  | mk i k r ty ti d mnl mxl pat en mn mx mni mxi u it ch =>
    rcases it with _ | itp <;> rcases ch with _ | cs <;>
      simp [buildPropFields, lookupField_append, lookupField_ite, lookupField,
            optOr_some, optOr_none, optOr_none_right, lookupField_optField_eq,
            lookupField_optField_ne, PropertyData.type, PropertyData.pattern,
            ite_self]

theorem lookup_frag_enum (p : PropertyData) :
    lookupField (buildPropFields p) "enum"
      = (if p.type == "string" then gateEnum p.enum else none) := by
  cases p with
  | mk i k r ty ti d mnl mxl pat en mn mx mni mxi u it ch =>
    rcases it with _ | itp <;> rcases ch with _ | cs <;>
      simp [buildPropFields, lookupField_append, lookupField_ite, lookupField,
            optOr_some, optOr_none, optOr_none_right, lookupField_optField_eq,
            lookupField_optField_ne, PropertyData.type, PropertyData.enum,
            ite_self]

theorem lookup_frag_minimum (p : PropertyData) :
    lookupField (buildPropFields p) "minimum"
      = (if p.type == "number" || p.type == "integer" then p.minimum else none) := by
  cases p with
  | mk i k r ty ti d mnl mxl pat en mn mx mni mxi u it ch =>
    rcases it with _ | itp <;> rcases ch with _ | cs <;>
      simp [buildPropFields, lookupField_append, lookupField_ite, lookupField,
            optOr_some, optOr_none, optOr_none_right, lookupField_optField_eq,
            lookupField_optField_ne, PropertyData.type, PropertyData.minimum,
            ite_self]

theorem lookup_frag_maximum (p : PropertyData) :
    lookupField (buildPropFields p) "maximum"
      = (if p.type == "number" || p.type == "integer" then p.maximum else none) := by
  cases p with
  | mk i k r ty ti d mnl mxl pat en mn mx mni mxi u it ch =>
    rcases it with _ | itp <;> rcases ch with _ | cs <;>
      simp [buildPropFields, lookupField_append, lookupField_ite, lookupField,
            optOr_some, optOr_none, optOr_none_right, lookupField_optField_eq,
            lookupField_optField_ne, PropertyData.type, PropertyData.maximum,
            ite_self]

theorem lookup_frag_minItems (p : PropertyData) :
    lookupField (buildPropFields p) "minItems"
      = (if p.type == "array" then p.minItems else none) := by
  cases p with
  | mk i k r ty ti d mnl mxl pat en mn mx mni mxi u it ch =>
    rcases it with _ | itp <;> rcases ch with _ | cs <;>
      simp [buildPropFields, lookupField_append, lookupField_ite, lookupField,
            optOr_some, optOr_none, optOr_none_right, lookupField_optField_eq,
            lookupField_optField_ne, PropertyData.type, PropertyData.minItems,
            ite_self]

theorem lookup_frag_maxItems (p : PropertyData) :
    lookupField (buildPropFields p) "maxItems"
      = (if p.type == "array" then p.maxItems else none) := by
  cases p with
  | mk i k r ty ti d mnl mxl pat en mn mx mni mxi u it ch =>
    rcases it with _ | itp <;> rcases ch with _ | cs <;>
      simp [buildPropFields, lookupField_append, lookupField_ite, lookupField,
            optOr_some, optOr_none, optOr_none_right, lookupField_optField_eq,
            lookupField_optField_ne, PropertyData.type, PropertyData.maxItems,
            ite_self]

theorem lookup_frag_uniqueItems (p : PropertyData) :
    lookupField (buildPropFields p) "uniqueItems"
      = (if p.type == "array" then truthyOpt p.uniqueItems else none) := by
  cases p with
  | mk i k r ty ti d mnl mxl pat en mn mx mni mxi u it ch =>
    rcases it with _ | itp <;> rcases ch with _ | cs <;>
      simp [buildPropFields, lookupField_append, lookupField_ite, lookupField,
            optOr_some, optOr_none, optOr_none_right, lookupField_optField_eq,
            lookupField_optField_ne, PropertyData.type, PropertyData.uniqueItems,
            ite_self]

theorem lookup_frag_items (p : PropertyData) :
    lookupField (buildPropFields p) "items"
      = (if p.type == "array" then
           match p.items with
           | some itp =>
               some ((lookupField (buildPropsAux [] [itp]) itp.key).getD
                 (Json.obj [("type", Json.str itp.type)]))
           | none => none
         else none) := by
  cases p with
  | mk i k r ty ti d mnl mxl pat en mn mx mni mxi u it ch =>
    rcases it with _ | itp <;> rcases ch with _ | cs <;>
      simp [buildPropFields, lookupField_append, lookupField_ite, lookupField,
            optOr_some, optOr_none, optOr_none_right, lookupField_optField_eq,
            lookupField_optField_ne, PropertyData.type, PropertyData.items,
            ite_self]

theorem lookup_frag_properties (p : PropertyData) :
    lookupField (buildPropFields p) "properties"
      = (if p.type == "object" then
           match p.children with
           | some cs =>
               if cs.length > 0 then some (Json.obj (buildPropsAux [] cs)) else none
           | none => none
         else none) := by
  cases p with
  | mk i k r ty ti d mnl mxl pat en mn mx mni mxi u it ch =>
    rcases it with _ | itp <;> rcases ch with _ | cs <;>
      simp [buildPropFields, lookupField_append, lookupField_ite, lookupField,
            optOr_some, optOr_none, optOr_none_right, lookupField_optField_eq,
            lookupField_optField_ne, PropertyData.type, PropertyData.children,
            ite_self]

theorem lookup_frag_required (p : PropertyData) :
    lookupField (buildPropFields p) "required"
      = (if p.type == "object" then
           match p.children with
           | some cs =>
               if cs.length > 0 then
                 (if requiredKeys cs = [] then none
                  else some (Json.arr ((requiredKeys cs).map Json.str)))
               else none
           | none => none
         else none) := by
  cases p with
  | mk i k r ty ti d mnl mxl pat en mn mx mni mxi u it ch =>
    by_cases hty : ty = "object"
    · subst hty
      rcases it with _ | itp <;> rcases ch with _ | cs
      case pos.none.some | pos.some.some =>
        by_cases hcs : cs.length > 0 <;> by_cases hreq : requiredKeys cs = [] <;>
          simp [buildPropFields, hcs, hreq, lookupField_append, lookupField_ite,
                lookupField, optOr_some, optOr_none, optOr_none_right,
                lookupField_optField_ne, List.length_pos, PropertyData.type,
                PropertyData.children]
      all_goals
        simp [buildPropFields, lookupField_append, lookupField_ite, lookupField,
              optOr_some, optOr_none, optOr_none_right, lookupField_optField_ne,
              PropertyData.type, PropertyData.children]
    · have hty2 : (ty == "object") = false := by simp [hty]
      rcases it with _ | itp <;> rcases ch with _ | cs <;>
        simp [buildPropFields, lookupField_append, lookupField_ite, lookupField,
              optOr_some, optOr_none, optOr_none_right, lookupField_optField_ne,
              hty, hty2, PropertyData.type, PropertyData.children]

/-! ### Helpers for the round-trip proof -/

theorem parsedType_frag (p : PropertyData) :
    parsedType (Json.obj (buildPropFields p)) = p.type := by
  simp only [parsedType, rawType, isFilenameFormat, getField_obj,
             lookup_frag_type, lookup_frag_format]
  by_cases hf : p.type = "file" <;> simp [hf]

theorem jeq_obj_null (fs : List (String × Json)) :
    (Json.obj fs == Json.null) = false := by
  simp [instBEqJson, jeq]

theorem stripIds_key (p : PropertyData) : (stripIds p).key = p.key := by
  cases p with
  | mk i k r ty ti d mnl mxl pat en mn mx mni mxi u it ch =>
    simp [stripIds, PropertyData.key]

theorem stripIdsL_map (l : List PropertyData) : stripIdsL l = l.map stripIds := by
  induction l with
  | nil => rfl
  | cons p ps ih => simp [stripIdsL, ih]

theorem truthyOpt_self {o : Option Json} (h : optTruthyOk o = true) :
    truthyOpt o = o := by
  cases o with
  | none => rfl
  | some j =>
    simp [optTruthyOk] at h
    simp [truthyOpt, h]

theorem truthyOpt_idem (o : Option Json) : truthyOpt (truthyOpt o) = truthyOpt o := by
  cases o with
  | none => rfl
  | some j =>
    by_cases h : j.truthy = true <;> simp [truthyOpt, h]

theorem strOf_gateStr {o : Option String} (h : o ≠ some "") :
    (match gateStr o with
      | some (Json.str s) => some s
      | _ => none) = o := by
  cases o with
  | none => rfl
  | some t =>
    have ht : t ≠ "" := by
      intro he
      exact h (by rw [he])
    simp [gateStr, ht]

theorem enumOf_gateEnum {en : Option (List Json)} (h : enumFieldOk en = true) :
    (match gateEnum en with
      | some (Json.arr xs) => some xs
      | _ => none) = en := by
  cases en with
  | none => rfl
  | some l =>
    simp [enumFieldOk] at h
    simp [gateEnum, List.length_pos, h]

theorem canonicalL_mem {l : List PropertyData} (h : canonicalL l = true)
    {p : PropertyData} (hp : p ∈ l) : canonicalP p = true := by
  induction l with
  | nil => cases hp
  | cons q rest ih =>
    rw [canonicalL] at h
    simp only [Bool.and_eq_true] at h
    rcases List.mem_cons.mp hp with rfl | hmem
    · exact h.1
    · exact ih h.2 hmem

theorem canonicalP_key {p : PropertyData} (h : canonicalP p = true) :
    p.key ≠ "" := by
  cases p with
  | mk i k r ty ti d mnl mxl pat en mn mx mni mxi u it ch =>
    rw [canonicalP] at h
    simp only [Bool.and_eq_true, bne_iff_ne] at h
    simpa [PropertyData.key] using h.1.1.1.1.1.1.1

theorem contains_str_iff (l : List String) (k : String) :
    ((l.map Json.str).contains (Json.str k)) = l.contains k := by
  induction l with
  | nil => rfl
  | cons x xs ih =>
    simp only [List.map_cons, List.contains_cons, ih]
    have : (Json.str k == Json.str x) = (k == x) := by
      simp [instBEqJson, jeq]
    rw [this]

theorem contains_eq_mem (l : List String) (k : String) :
    l.contains k = true ↔ k ∈ l := by
  induction l with
  | nil => simp
  | cons x xs ih =>
    simp only [List.contains_cons, Bool.or_eq_true, beq_iff_eq, ih, List.mem_cons]

theorem requiredKeys_subset {l : List PropertyData} {k : String}
    (h : k ∈ requiredKeys l) : k ∈ l.map PropertyData.key := by
  simp only [requiredKeys, List.mem_map, List.mem_filter] at h
  obtain ⟨q, ⟨hq, _⟩, rfl⟩ := h
  exact List.mem_map.mpr ⟨q, hq, rfl⟩

theorem mem_requiredKeys {l : List PropertyData}
    (hd : keysDistinct (l.map PropertyData.key) = true)
    {p : PropertyData} (hp : p ∈ l) (hk : p.key ≠ "") :
    p.key ∈ requiredKeys l ↔ p.required = true := by
  induction l with
  | nil => cases hp
  | cons q rest ih =>
    simp only [List.map_cons, keysDistinct] at hd
    simp only [Bool.and_eq_true, Bool.not_eq_true'] at hd
    obtain ⟨hnc, hdrest⟩ := hd
    have hnotmem : q.key ∉ rest.map PropertyData.key := by
      intro hmem
      rw [← contains_eq_mem] at hmem
      rw [hmem] at hnc
      cases hnc
    rcases List.mem_cons.mp hp with rfl | hmem
    · constructor
      · intro h
        simp only [requiredKeys, List.filter_cons] at h
        by_cases hr : p.required
        · exact hr
        · have hfilt : (p.required && p.key != "") = false := by
            cases hpr : p.required
            · rfl
            · exact absurd hpr hr
          rw [if_neg (by simp [hfilt])] at h
          exact absurd (requiredKeys_subset h) hnotmem
      · intro hr
        simp only [requiredKeys, List.filter_cons]
        have : (p.required && p.key != "") = true := by simp [hr, hk]
        rw [if_pos this]
        simp
    · have hqp : q.key ≠ p.key := by
        intro he
        exact hnotmem (he ▸ List.mem_map.mpr ⟨p, hmem, rfl⟩)
      rw [← ih hdrest hmem]
      simp only [requiredKeys, List.filter_cons]
      by_cases hq : (q.required && q.key != "") = true
      · rw [if_pos hq]
        simp only [List.map_cons, List.mem_cons]
        constructor
        · rintro (he | h)
          · exact absurd he.symm hqp
          · exact h
        · exact Or.inr
      · rw [if_neg hq]

theorem contains_requiredKeys {l : List PropertyData}
    (hd : keysDistinct (l.map PropertyData.key) = true)
    {p : PropertyData} (hp : p ∈ l) (hk : p.key ≠ "") :
    ((requiredKeys l).map Json.str).contains (Json.str p.key) = p.required := by
  rw [contains_str_iff]
  by_cases hr : p.required = true
  · rw [hr]
    exact (contains_eq_mem _ _).mpr ((mem_requiredKeys hd hp hk).mpr hr)
  · have hmem : p.key ∉ requiredKeys l :=
      fun hm => hr ((mem_requiredKeys hd hp hk).mp hm)
    have hc : (requiredKeys l).contains p.key = false := by
      rw [← Bool.not_eq_true]
      exact fun hcc => hmem ((contains_eq_mem _ _).mp hcc)
    have hr2 : p.required = false := by
      cases hpr : p.required
      · rfl
      · exact absurd hpr hr
    rw [hc, hr2]

theorem buildPropsAux_map {l : List PropertyData}
    (hk : ∀ p ∈ l, p.key ≠ "")
    (hd : keysDistinct (l.map PropertyData.key) = true) :
    ∀ acc, (∀ f ∈ acc, ∀ p ∈ l, f.1 ≠ p.key) →
    buildPropsAux acc l
      = acc ++ l.map (fun p => (p.key, Json.obj (buildPropFields p))) := by
  induction l with
  | nil =>
    intro acc _
    simp [buildPropsAux]
  | cons p rest ih =>
    intro acc hacc
    have hkp : p.key ≠ "" := hk p (by simp)
    have hkp2 : (p.key == "") = false := by simp [hkp]
    rw [buildPropsAux, hkp2]
    simp only [Bool.false_eq_true, if_false]
    simp only [List.map_cons, keysDistinct] at hd
    simp only [Bool.and_eq_true, Bool.not_eq_true'] at hd
    obtain ⟨hnc, hdrest⟩ := hd
    have hnotmem : ∀ q ∈ rest, p.key ≠ q.key := by
      intro q hq he
      have hm : p.key ∈ rest.map PropertyData.key :=
        he ▸ List.mem_map.mpr ⟨q, hq, rfl⟩
      rw [← contains_eq_mem] at hm
      rw [hm] at hnc
      cases hnc
    have hset : setField acc p.key (Json.obj (buildPropFields p))
        = acc ++ [(p.key, Json.obj (buildPropFields p))] :=
      setField_not_mem (fun f hf => hacc f hf p (by simp)) _
    rw [hset]
    rw [ih (fun q hq => hk q (by simp [hq])) hdrest
        (acc ++ [(p.key, Json.obj (buildPropFields p))]) ?_]
    · simp
    · intro f hf q hq
      rcases List.mem_append.mp hf with hfa | hfl
      · exact hacc f hfa q (by simp [hq])
      · simp only [List.mem_singleton] at hfl
        subst hfl
        exact hnotmem q hq

theorem buildProperties_map {l : List PropertyData}
    (hk : ∀ p ∈ l, p.key ≠ "")
    (hd : keysDistinct (l.map PropertyData.key) = true) :
    buildProperties l = l.map (fun p => (p.key, Json.obj (buildPropFields p))) := by
  rw [buildProperties, buildPropsAux_map hk hd [] (by intro f hf; cases hf)]
  rfl

theorem strField_frag_title {p : PropertyData} (h : p.title ≠ some "") :
    strField (Json.obj (buildPropFields p)) "title" = p.title := by
  have he : strField (Json.obj (buildPropFields p)) "title"
      = (match gateStr p.title with
          | some (Json.str s) => some s
          | _ => none) := by
    simp only [strField, getField_obj, lookup_frag_title]
  rw [he]
  exact strOf_gateStr h

theorem strField_frag_description {p : PropertyData} (h : p.description ≠ some "") :
    strField (Json.obj (buildPropFields p)) "description" = p.description := by
  have he : strField (Json.obj (buildPropFields p)) "description"
      = (match gateStr p.description with
          | some (Json.str s) => some s
          | _ => none) := by
    simp only [strField, getField_obj, lookup_frag_description]
  rw [he]
  exact strOf_gateStr h

theorem enumOfField_frag {p : PropertyData} (h : p.type = "string" → enumFieldOk p.enum = true)
    (h2 : p.type ≠ "string" → p.enum = none) :
    enumOfField (Json.obj (buildPropFields p)) = p.enum := by
  have he : enumOfField (Json.obj (buildPropFields p))
      = (match (if p.type == "string" then gateEnum p.enum else none) with
          | some (Json.arr xs) => some xs
          | _ => none) := by
    simp only [enumOfField, getField_obj, lookup_frag_enum]
  rw [he]
  by_cases hs : p.type = "string"
  · have hbeq : (p.type == "string") = true := by simp [hs]
    rw [hbeq]
    simp only [if_true]
    exact enumOf_gateEnum (h hs)
  · have hbeq : (p.type == "string") = false := by simp [hs]
    rw [hbeq]
    simp [h2 hs]

theorem setReq_stripIds_required (p : PropertyData) :
    setReq (stripIds p) p.required = stripIds p := by
  cases p with
  | mk i k r ty ti d mnl mxl pat en mn mx mni mxi u it ch =>
    simp [stripIds, setReq, PropertyData.required]

theorem setReq_key (p : PropertyData) (b : Bool) : (setReq p b).key = p.key := by
  cases p with
  | mk i k r ty ti d mnl mxl pat en mn mx mni mxi u it ch =>
    simp [setReq, PropertyData.key]

theorem roundtrip_aux : ∀ n : Nat,
    (∀ p : PropertyData, psize p ≤ n → canonicalP p = true → ∀ req,
        parsePropertyEntry p.key (Json.obj (buildPropFields p)) req
          = Except.ok (setReq (stripIds p) (req.contains (Json.str p.key))))
    ∧ (∀ l : List PropertyData, psizeL l ≤ n → canonicalL l = true → ∀ req,
        parseProperties (l.map (fun p => (p.key, Json.obj (buildPropFields p)))) req
          = Except.ok (l.map (fun p => setReq (stripIds p) (req.contains (Json.str p.key))))) := by
  intro n
  induction n using Nat.strong_induction_on with
  | _ n ih =>
    constructor
    · intro p hsz hcan req
      cases p with
      | mk i k r ty ti d mnl mxl pat en mn mx mni mxi u it ch =>
      rw [canonicalP] at hcan
      simp only [Bool.and_eq_true, bne_iff_ne] at hcan
      obtain ⟨⟨⟨⟨⟨⟨⟨hkey, hti⟩, hdd⟩, hty8⟩, hstr⟩, hnum⟩, harr⟩, hobj⟩ := hcan
      have hpsz : psize (PropertyData.mk i k r ty ti d mnl mxl pat en mn mx mni mxi u it ch)
          = 1 + psizeO it + psizeLO ch := rfl
      have hptv : parsedType (Json.obj (buildPropFields
          (PropertyData.mk i k r ty ti d mnl mxl pat en mn mx mni mxi u it ch))) = ty := by
        rw [parsedType_frag]
        simp [PropertyData.type]
      have hitems : parseItems ty (Json.obj (buildPropFields
          (PropertyData.mk i k r ty ti d mnl mxl pat en mn mx mni mxi u it ch)))
          = Except.ok (stripIdsO it) := by
        have hfit := lookup_frag_items
          (PropertyData.mk i k r ty ti d mnl mxl pat en mn mx mni mxi u it ch)
        simp only [PropertyData.type, PropertyData.items] at hfit
        rw [parseItems]
        cases hA : (ty == "array") with
        | false =>
          rw [hA] at harr
          simp only [Bool.false_eq_true, if_false, Bool.and_eq_true,
                     Option.isNone_iff_eq_none] at harr ⊢
          rw [harr.2]
          rfl
        | true =>
          rw [hA] at harr hfit
          simp only [if_true, Bool.and_eq_true] at harr
          obtain ⟨hu, hitc⟩ := harr
          simp only [if_true] at hfit ⊢
          cases it with
          | none =>
            rw [getField_obj, hfit]
            rfl
          | some itp =>
            rw [itemsCanon] at hitc
            simp only [Bool.and_eq_true] at hitc
            obtain ⟨⟨hik, hirq⟩, hicanon⟩ := hitc
            have hikey : itp.key = "item" := by simpa using hik
            have hirq2 : itp.required = false := by simpa using hirq
            have hknz : (itp.key == "") = false := by simp [hikey]
            have hsingle : buildPropsAux [] [itp]
                = [(itp.key, Json.obj (buildPropFields itp))] := by
              rw [buildPropsAux, hknz]
              simp [buildPropsAux, setField]
            have hfit2 : lookupField (buildPropFields
                (PropertyData.mk i k r ty ti d mnl mxl pat en mn mx mni mxi u (some itp) ch))
                "items"
                = some ((lookupField (buildPropsAux [] [itp]) itp.key).getD
                    (Json.obj [("type", Json.str itp.type)])) := hfit
            rw [getField_obj, hfit2, hsingle]
            simp only [lookupField, eq_self_iff_true, if_true, if_pos rfl,
                       Option.getD_some]
            have hguard : ((Json.obj (buildPropFields itp)).truthy
                && typeofObject (Json.obj (buildPropFields itp))
                && !(isJsonArray (Json.obj (buildPropFields itp)))) = true := rfl
            rw [if_pos hguard]
            have hb : psizeL [itp] < n := by
              have h1 : psizeL [itp] = 1 + psize itp + 0 := rfl
              have h2 : psizeO (some itp) = 1 + psize itp := rfl
              omega
            have hps := (ih (psizeL [itp]) hb).2 [itp] le_rfl
              (by rw [canonicalL]; simp [hicanon, canonicalL]) []
            simp only [List.map_cons, List.map_nil] at hps
            rw [hikey] at hps
            rw [hps]
            simp only [List.find?]
            have hcf : (List.contains ([] : List Json) (Json.str "item")) = false := rfl
            rw [hcf]
            rw [show ((setReq (stripIds itp) false).key == "item") = true by
              simp [setReq_key, stripIds_key, hikey]]
            show Except.ok (some (setReq (stripIds itp) false))
              = Except.ok (stripIdsO (some itp))
            rw [show (false : Bool) = itp.required from hirq2.symm,
               setReq_stripIds_required]
            simp [stripIdsO]
      have hchildren : parseChildren (Json.obj (buildPropFields
          (PropertyData.mk i k r ty ti d mnl mxl pat en mn mx mni mxi u it ch)))
          = Except.ok (stripIdsLO ch) := by
        have hfch := lookup_frag_properties
          (PropertyData.mk i k r ty ti d mnl mxl pat en mn mx mni mxi u it ch)
        simp only [PropertyData.type, PropertyData.children] at hfch
        rw [parseChildren]
        by_cases hOp : ty = "object"
        case neg =>
          have hO : (ty == "object") = false := by simp [hOp]
          rw [hO] at hobj hfch
          simp only [Bool.false_eq_true, if_false, Option.isNone_iff_eq_none] at hobj hfch
          have hg : getField (Json.obj (buildPropFields
              (PropertyData.mk i k r ty ti d mnl mxl pat en mn mx mni mxi u it ch)))
              "properties" = none := by
            rw [getField_obj]
            exact hfch
          rw [hg, hobj]
          rfl
        case pos =>
          have hO : (ty == "object") = true := by simp [hOp]
          rw [hO] at hobj hfch
          simp only [eq_self_iff_true, if_true] at hobj hfch
          cases ch with
          | none =>
            have hg : getField (Json.obj (buildPropFields
                (PropertyData.mk i k r ty ti d mnl mxl pat en mn mx mni mxi u it none)))
                "properties" = none := by
              rw [getField_obj]
              exact hfch
            rw [hg]
            rfl
          | some cs =>
            rw [childrenCanon] at hobj
            simp only [Bool.and_eq_true] at hobj
            obtain ⟨⟨hcsne, hcl2⟩, hcd⟩ := hobj
            have hcsne2 : cs ≠ [] := by simpa using hcsne
            have hlen : cs.length > 0 := List.length_pos.mpr hcsne2
            have hfch2 : lookupField (buildPropFields
                (PropertyData.mk i k r ty ti d mnl mxl pat en mn mx mni mxi u it (some cs)))
                "properties"
                = (if cs.length > 0 then some (Json.obj (buildPropsAux [] cs)) else none) := hfch
            rw [if_pos hlen] at hfch2
            have hBP : buildPropsAux [] cs
                = cs.map (fun q => (q.key, Json.obj (buildPropFields q))) :=
              buildProperties_map
                (fun q hq => canonicalP_key (canonicalL_mem hcl2 hq)) hcd
            have hg : getField (Json.obj (buildPropFields
                (PropertyData.mk i k r ty ti d mnl mxl pat en mn mx mni mxi u it (some cs))))
                "properties"
                = some (Json.obj (cs.map (fun q => (q.key, Json.obj (buildPropFields q))))) := by
              rw [getField_obj, hfch2, hBP]
            rw [hg]
            simp only [show ((Json.obj (cs.map (fun q => (q.key, Json.obj (buildPropFields q))))).truthy
                && typeofObject (Json.obj (cs.map (fun q => (q.key, Json.obj (buildPropFields q)))))) = true from rfl,
              if_true]
            have hreqlist : reqListOf (Json.obj (buildPropFields
                (PropertyData.mk i k r ty ti d mnl mxl pat en mn mx mni mxi u it (some cs))))
                = (requiredKeys cs).map Json.str := by
              have hfr := lookup_frag_required
                (PropertyData.mk i k r ty ti d mnl mxl pat en mn mx mni mxi u it (some cs))
              simp only [PropertyData.type, PropertyData.children, hO, if_true] at hfr
              have hfr2 : lookupField (buildPropFields
                  (PropertyData.mk i k r ty ti d mnl mxl pat en mn mx mni mxi u it (some cs)))
                  "required"
                  = (if cs.length > 0 then
                       (if requiredKeys cs = [] then none
                        else some (Json.arr ((requiredKeys cs).map Json.str)))
                     else none) := hfr
              rw [if_pos hlen] at hfr2
              rw [reqListOf, getField_obj]
              by_cases hrk : requiredKeys cs = []
              · rw [if_pos hrk] at hfr2
                rw [hfr2, hrk]
                rfl
              · rw [if_neg hrk] at hfr2
                rw [hfr2]
            have hb : psizeL cs < n := by
              have h2 : psizeLO (some cs) = 1 + psizeL cs := rfl
              omega
            have hps := (ih (psizeL cs) hb).2 cs le_rfl hcl2 ((requiredKeys cs).map Json.str)
            rw [show entriesOf (Json.obj (cs.map (fun q => (q.key, Json.obj (buildPropFields q)))))
                = cs.map (fun q => (q.key, Json.obj (buildPropFields q))) from rfl]
            rw [hreqlist, hps]
            have hmapeq : cs.map (fun q => setReq (stripIds q)
                (((requiredKeys cs).map Json.str).contains (Json.str q.key)))
                = stripIdsL cs := by
              rw [stripIdsL_map]
              apply List.map_congr_left
              intro q hq
              rw [contains_requiredKeys hcd hq (canonicalP_key (canonicalL_mem hcl2 hq))]
              exact setReq_stripIds_required q
            rw [hmapeq]
            rfl
      rw [show (PropertyData.mk i k r ty ti d mnl mxl pat en mn mx mni mxi u it ch).key
          = k from rfl]
      rw [parsePropertyEntry_ok_intro k req (jeq_obj_null _)
            (by rw [hptv]; exact hitems) hchildren]
      have hT : strField (Json.obj (buildPropFields
          (PropertyData.mk i k r ty ti d mnl mxl pat en mn mx mni mxi u it ch))) "title" = ti := by
        have := strField_frag_title
          (p := PropertyData.mk i k r ty ti d mnl mxl pat en mn mx mni mxi u it ch)
          (by simpa [PropertyData.title] using hti)
        simpa [PropertyData.title] using this
      have hD : strField (Json.obj (buildPropFields
          (PropertyData.mk i k r ty ti d mnl mxl pat en mn mx mni mxi u it ch))) "description" = d := by
        have := strField_frag_description
          (p := PropertyData.mk i k r ty ti d mnl mxl pat en mn mx mni mxi u it ch)
          (by simpa [PropertyData.description] using hdd)
        simpa [PropertyData.description] using this
      have hminL : getField (Json.obj (buildPropFields
          (PropertyData.mk i k r ty ti d mnl mxl pat en mn mx mni mxi u it ch))) "minLength" = mnl := by
        rw [getField_obj]
        have hf := lookup_frag_minLength
          (PropertyData.mk i k r ty ti d mnl mxl pat en mn mx mni mxi u it ch)
        simp only [PropertyData.type, PropertyData.minLength] at hf
        rw [hf]
        cases hS : (ty == "string") with
        | true => simp
        | false =>
          rw [hS] at hstr
          simp only [Bool.false_eq_true, if_false, Bool.and_eq_true,
                     Option.isNone_iff_eq_none] at hstr ⊢
          exact hstr.1.1.1.symm
      have hmaxL : getField (Json.obj (buildPropFields
          (PropertyData.mk i k r ty ti d mnl mxl pat en mn mx mni mxi u it ch))) "maxLength" = mxl := by
        rw [getField_obj]
        have hf := lookup_frag_maxLength
          (PropertyData.mk i k r ty ti d mnl mxl pat en mn mx mni mxi u it ch)
        simp only [PropertyData.type, PropertyData.maxLength] at hf
        rw [hf]
        cases hS : (ty == "string") with
        | true => simp
        | false =>
          rw [hS] at hstr
          simp only [Bool.false_eq_true, if_false, Bool.and_eq_true,
                     Option.isNone_iff_eq_none] at hstr ⊢
          exact hstr.1.1.2.symm
      have hpat : truthyOpt (getField (Json.obj (buildPropFields
          (PropertyData.mk i k r ty ti d mnl mxl pat en mn mx mni mxi u it ch))) "pattern") = pat := by
        rw [getField_obj]
        have hf := lookup_frag_pattern
          (PropertyData.mk i k r ty ti d mnl mxl pat en mn mx mni mxi u it ch)
        simp only [PropertyData.type, PropertyData.pattern] at hf
        rw [hf]
        cases hS : (ty == "string") with
        | true =>
          rw [hS] at hstr
          simp only [if_true, Bool.and_eq_true] at hstr ⊢
          rw [truthyOpt_idem]
          exact truthyOpt_self hstr.1
        | false =>
          rw [hS] at hstr
          simp only [Bool.false_eq_true, if_false, Bool.and_eq_true,
                     Option.isNone_iff_eq_none] at hstr ⊢
          rw [hstr.1.2]
          rfl
      have hen : enumOfField (Json.obj (buildPropFields
          (PropertyData.mk i k r ty ti d mnl mxl pat en mn mx mni mxi u it ch))) = en := by
        have := enumOfField_frag
          (p := PropertyData.mk i k r ty ti d mnl mxl pat en mn mx mni mxi u it ch)
          (by
            intro hs
            simp only [PropertyData.type] at hs
            have hS : (ty == "string") = true := by simp [hs]
            rw [hS] at hstr
            simp only [if_true, Bool.and_eq_true] at hstr
            simpa [PropertyData.enum] using hstr.2)
          (by
            intro hs
            simp only [PropertyData.type] at hs
            have hS : (ty == "string") = false := by simp [hs]
            rw [hS] at hstr
            simp only [Bool.false_eq_true, if_false, Bool.and_eq_true,
                       Option.isNone_iff_eq_none] at hstr
            simpa [PropertyData.enum] using hstr.2)
        simpa [PropertyData.enum] using this
      have hmin : getField (Json.obj (buildPropFields
          (PropertyData.mk i k r ty ti d mnl mxl pat en mn mx mni mxi u it ch))) "minimum" = mn := by
        rw [getField_obj]
        have hf := lookup_frag_minimum
          (PropertyData.mk i k r ty ti d mnl mxl pat en mn mx mni mxi u it ch)
        simp only [PropertyData.type, PropertyData.minimum] at hf
        rw [hf]
        cases hN : (ty == "number" || ty == "integer") with
        | true => simp
        | false =>
          rw [hN] at hnum
          simp only [Bool.false_eq_true, if_false, Bool.and_eq_true,
                     Option.isNone_iff_eq_none] at hnum ⊢
          exact hnum.1.symm
      have hmax : getField (Json.obj (buildPropFields
          (PropertyData.mk i k r ty ti d mnl mxl pat en mn mx mni mxi u it ch))) "maximum" = mx := by
        rw [getField_obj]
        have hf := lookup_frag_maximum
          (PropertyData.mk i k r ty ti d mnl mxl pat en mn mx mni mxi u it ch)
        simp only [PropertyData.type, PropertyData.maximum] at hf
        rw [hf]
        cases hN : (ty == "number" || ty == "integer") with
        | true => simp
        | false =>
          rw [hN] at hnum
          simp only [Bool.false_eq_true, if_false, Bool.and_eq_true,
                     Option.isNone_iff_eq_none] at hnum ⊢
          exact hnum.2.symm
      have hminI : getField (Json.obj (buildPropFields
          (PropertyData.mk i k r ty ti d mnl mxl pat en mn mx mni mxi u it ch))) "minItems" = mni := by
        rw [getField_obj]
        have hf := lookup_frag_minItems
          (PropertyData.mk i k r ty ti d mnl mxl pat en mn mx mni mxi u it ch)
        simp only [PropertyData.type, PropertyData.minItems] at hf
        rw [hf]
        cases hA : (ty == "array") with
        | true => simp
        | false =>
          rw [hA] at harr
          simp only [Bool.false_eq_true, if_false, Bool.and_eq_true,
                     Option.isNone_iff_eq_none] at harr ⊢
          exact harr.1.1.1.symm
      have hmaxI : getField (Json.obj (buildPropFields
          (PropertyData.mk i k r ty ti d mnl mxl pat en mn mx mni mxi u it ch))) "maxItems" = mxi := by
        rw [getField_obj]
        have hf := lookup_frag_maxItems
          (PropertyData.mk i k r ty ti d mnl mxl pat en mn mx mni mxi u it ch)
        simp only [PropertyData.type, PropertyData.maxItems] at hf
        rw [hf]
        cases hA : (ty == "array") with
        | true => simp
        | false =>
          rw [hA] at harr
          simp only [Bool.false_eq_true, if_false, Bool.and_eq_true,
                     Option.isNone_iff_eq_none] at harr ⊢
          exact harr.1.1.2.symm
      have huniq : truthyOpt (getField (Json.obj (buildPropFields
          (PropertyData.mk i k r ty ti d mnl mxl pat en mn mx mni mxi u it ch))) "uniqueItems") = u := by
        rw [getField_obj]
        have hf := lookup_frag_uniqueItems
          (PropertyData.mk i k r ty ti d mnl mxl pat en mn mx mni mxi u it ch)
        simp only [PropertyData.type, PropertyData.uniqueItems] at hf
        rw [hf]
        cases hA : (ty == "array") with
        | true =>
          rw [hA] at harr
          simp only [if_true, Bool.and_eq_true] at harr ⊢
          rw [truthyOpt_idem]
          exact truthyOpt_self harr.1
        | false =>
          rw [hA] at harr
          simp only [Bool.false_eq_true, if_false, Bool.and_eq_true,
                     Option.isNone_iff_eq_none] at harr ⊢
          rw [harr.1.2]
          rfl
      simp only [stripIds, setReq]
      rw [hptv, hT, hD, hminL, hmaxL, hpat, hen, hmin, hmax, hminI, hmaxI, huniq]
      rfl
    · intro l hsz hcan req
      match l with
      | [] => simp [parseProperties]
      | p :: rest =>
        have hsize : psizeL (p :: rest) = 1 + psize p + psizeL rest := rfl
        rw [canonicalL] at hcan
        simp only [Bool.and_eq_true] at hcan
        obtain ⟨hcp, hcl⟩ := hcan
        simp only [List.map_cons]
        rw [parseProperties]
        rw [if_pos (show typeofObject (Json.obj (buildPropFields p)) = true from rfl)]
        have hnode := (ih (psize p) (by omega)).1 p le_rfl hcp req
        rw [hnode]
        have hrest := (ih (psizeL rest) (by omega)).2 rest le_rfl hcl req
        rw [hrest]

/-! ### C1: the generate-parse round trip on canonical trees -/

theorem generateSchema_eq (props : List PropertyData) (md : Option SchemaMetadata)
    (im : Bool) :
    generateSchema props md im
      = Json.obj ([("type", Json.str "object")]
          ++ metaFieldsOf im md
          ++ (if (buildProperties props).length > 0 then
                [("properties", Json.obj (buildProperties props))] else [])
          ++ (if (requiredKeys props).length > 0 then
                [("required", Json.arr ((requiredKeys props).map Json.str))] else [])) := rfl

theorem lookupField_metaFieldsOf_title (m : SchemaMetadata) (ht : m.title ≠ "") :
    lookupField (metaFieldsOf true (some m)) "title" = some (Json.str m.title) := by
  simp [metaFieldsOf, lookupField_append, lookupField_ite, lookupField, optOr, ht]

theorem lookupField_metaFieldsOf_description (m : SchemaMetadata)
    (hd : m.description ≠ "") :
    lookupField (metaFieldsOf true (some m)) "description"
      = some (Json.str m.description) := by
  simp [metaFieldsOf, lookupField_append, lookupField_ite, lookupField, optOr, hd]

theorem lookupField_metaFieldsOf_version (m : SchemaMetadata) (hv : m.version ≠ "") :
    lookupField (metaFieldsOf true (some m)) "version" = some (Json.str m.version) := by
  simp [metaFieldsOf, lookupField_append, lookupField_ite, lookupField, optOr, hv]

theorem lookupField_metaFieldsOf_title_empty (m : SchemaMetadata)
    (ht : m.title = "") :
    lookupField (metaFieldsOf true (some m)) "title" = none := by
  simp [metaFieldsOf, lookupField_append, lookupField_ite, lookupField, optOr, ht]

theorem lookupField_metaFieldsOf_description_empty (m : SchemaMetadata)
    (hd : m.description = "") :
    lookupField (metaFieldsOf true (some m)) "description" = none := by
  simp [metaFieldsOf, lookupField_append, lookupField_ite, lookupField, optOr, hd]

theorem strFieldD_of_getField {j : Json} {k s d : String}
    (h : getField j k = some (Json.str s)) : strFieldD j k d = s := by
  rw [strFieldD, h]

theorem truthyField_of_getField {j : Json} {k : String} {v : Json}
    (h : getField j k = some v) : truthyField j k = v.truthy := by
  rw [truthyField, h]

theorem getField_gen_title (props : List PropertyData) (m : SchemaMetadata)
    (ht : m.title ≠ "") :
    getField (generateSchema props (some m) true) "title" = some (Json.str m.title) := by
  rw [generateSchema_eq, getField_obj]
  simp [lookupField_append, lookupField_ite, lookupField, optOr,
        lookupField_metaFieldsOf_title m ht]

theorem getField_gen_description (props : List PropertyData) (m : SchemaMetadata)
    (hd : m.description ≠ "") :
    getField (generateSchema props (some m) true) "description"
      = some (Json.str m.description) := by
  rw [generateSchema_eq, getField_obj]
  simp [lookupField_append, lookupField_ite, lookupField, optOr,
        lookupField_metaFieldsOf_description m hd]

theorem getField_gen_version (props : List PropertyData) (m : SchemaMetadata)
    (hv : m.version ≠ "") :
    getField (generateSchema props (some m) true) "version"
      = some (Json.str m.version) := by
  rw [generateSchema_eq, getField_obj]
  simp [lookupField_append, lookupField_ite, lookupField, optOr,
        lookupField_metaFieldsOf_version m hv]

theorem getField_gen_title_empty (props : List PropertyData) (m : SchemaMetadata)
    (ht : m.title = "") :
    getField (generateSchema props (some m) true) "title" = none := by
  rw [generateSchema_eq, getField_obj]
  simp [lookupField_append, lookupField_ite, lookupField, optOr,
        lookupField_metaFieldsOf_title_empty m ht]

theorem getField_gen_description_empty (props : List PropertyData) (m : SchemaMetadata)
    (hd : m.description = "") :
    getField (generateSchema props (some m) true) "description" = none := by
  rw [generateSchema_eq, getField_obj]
  simp [lookupField_append, lookupField_ite, lookupField, optOr,
        lookupField_metaFieldsOf_description_empty m hd]

theorem getField_gen_properties (props : List PropertyData) (m : SchemaMetadata) :
    getField (generateSchema props (some m) true) "properties"
      = (if (buildProperties props).length > 0 then
           some (Json.obj (buildProperties props)) else none) := by
  rw [generateSchema_eq, getField_obj]
  by_cases hP : (buildProperties props).length > 0 <;>
    simp [lookupField_append, lookupField_ite, lookupField, optOr, hP,
          lookupField_metaFieldsOf_ne true (some m)
            (show "title" ≠ "properties" from by decide)
            (show "description" ≠ "properties" from by decide)
            (show "version" ≠ "properties" from by decide)]

theorem getField_gen_required (props : List PropertyData) (m : SchemaMetadata) :
    getField (generateSchema props (some m) true) "required"
      = (if (requiredKeys props).length > 0 then
           some (Json.arr ((requiredKeys props).map Json.str)) else none) := by
  rw [generateSchema_eq, getField_obj]
  by_cases hR : (requiredKeys props).length > 0 <;>
    simp [lookupField_append, lookupField_ite, lookupField, optOr, hR,
          lookupField_metaFieldsOf_ne true (some m)
            (show "title" ≠ "required" from by decide)
            (show "description" ≠ "required" from by decide)
            (show "version" ≠ "required" from by decide)]

theorem reqListOf_gen (props : List PropertyData) (m : SchemaMetadata) :
    reqListOf (generateSchema props (some m) true)
      = (requiredKeys props).map Json.str := by
  rw [reqListOf, getField_gen_required]
  by_cases hR : (requiredKeys props).length > 0
  · rw [if_pos hR]
  · rw [if_neg hR]
    have h0 : requiredKeys props = [] := List.length_eq_zero.mp (by omega)
    rw [h0]
    rfl

/-- C1 (corrected): the round trip is the identity on canonical trees and on
metadata with a non-empty `version`.  For every property list whose nodes use
only generator-supported constructs (`canonicalL`: non-empty keys, a modeled
type tag, constraints only on the type that gates them, truthy
`pattern`/`uniqueItems`, non-empty `enum`, `items` keyed `"item"` and not
required, children only on non-empty-keyed objects) with pairwise-distinct
top-level keys, `parseSchema (generateSchema props (some m) true)` returns
exactly the id-stripped tree `stripIdsL props` together with the original
metadata `m`.  An empty `title` or `description` is dropped by the generator
and restored verbatim by the parser's `""` defaults, so only `version` must be
non-empty.  (The unrestricted claim is false: an empty `version` comes back as
`"1.0.0"`, see the counterexample.) -/
theorem generate_parse_roundtrip (props : List PropertyData) (m : SchemaMetadata)
    (hcan : canonicalL props = true)
    (hdist : keysDistinct (props.map PropertyData.key) = true)
    (hv : m.version ≠ "") :
    parseSchema (generateSchema props (some m) true)
      = Except.ok ⟨stripIdsL props, some m⟩ := by
  have hkeys : ∀ p ∈ props, p.key ≠ "" :=
    fun p hp => canonicalP_key (canonicalL_mem hcan hp)
  have hTV : truthyField (generateSchema props (some m) true) "version" = true := by
    rw [truthyField_of_getField (getField_gen_version props m hv)]
    simp [Json.truthy, hv]
  have hT : strFieldD (generateSchema props (some m) true) "title" "" = m.title := by
    by_cases ht : m.title = ""
    · rw [strFieldD, getField_gen_title_empty props m ht, ht]
    · exact strFieldD_of_getField (getField_gen_title props m ht)
  have hD : strFieldD (generateSchema props (some m) true) "description" ""
      = m.description := by
    by_cases hd : m.description = ""
    · rw [strFieldD, getField_gen_description_empty props m hd, hd]
    · exact strFieldD_of_getField (getField_gen_description props m hd)
  have hV : strFieldD (generateSchema props (some m) true) "version" "1.0.0"
      = m.version :=
    strFieldD_of_getField (getField_gen_version props m hv)
  simp only [parseSchema]
  rw [show ((generateSchema props (some m) true) == Json.null) = false from
        by rw [generateSchema_eq]; exact jeq_obj_null _]
  simp only [Bool.false_eq_true, if_false]
  rw [hTV]
  simp only [Bool.or_true, eq_self_iff_true, if_true]
  rw [hT, hD, hV, reqListOf_gen, getField_gen_properties]
  cases props with
  | nil =>
    have hbp : buildProperties ([] : List PropertyData) = [] := by
      simp [buildProperties, buildPropsAux]
    rw [hbp]
    simp [stripIdsL]
  | cons p ps =>
    have hbp : buildProperties (p :: ps)
        = (p :: ps).map (fun q => (q.key, Json.obj (buildPropFields q))) :=
      buildProperties_map hkeys hdist
    rw [hbp]
    rw [if_pos (by simp)]
    simp only [show ((Json.obj ((p :: ps).map
          (fun q => (q.key, Json.obj (buildPropFields q))))).truthy
        && typeofObject (Json.obj ((p :: ps).map
          (fun q => (q.key, Json.obj (buildPropFields q)))))) = true from rfl, if_true]
    rw [show entriesOf (Json.obj ((p :: ps).map
          (fun q => (q.key, Json.obj (buildPropFields q)))))
        = (p :: ps).map (fun q => (q.key, Json.obj (buildPropFields q))) from rfl]
    have hps := (roundtrip_aux (psizeL (p :: ps))).2 (p :: ps) le_rfl hcan
      ((requiredKeys (p :: ps)).map Json.str)
    rw [hps]
    have hmapeq : (p :: ps).map (fun q => setReq (stripIds q)
        (((requiredKeys (p :: ps)).map Json.str).contains (Json.str q.key)))
        = stripIdsL (p :: ps) := by
      rw [stripIdsL_map]
      apply List.map_congr_left
      intro q hq
      rw [contains_requiredKeys hdist hq (hkeys q hq)]
      exact setReq_stripIds_required q
    rw [hmapeq]

/-- Closed witness for the C1 round-trip theorem: the concrete canonical tree
`[{key:"age", type:"integer", required, minimum:0, maximum:120}]` with
metadata `{title:"", description:"D", version:"V"}` (empty title included, to
exhibit that only `version` needs to be non-empty) satisfies every hypothesis,
and the round trip returns the id-stripped tree with that metadata. -/
theorem generate_parse_roundtrip_witness :
    canonicalL [PropertyData.mk "i0" "age" true "integer" none none none none none none
        (some (Json.num 0)) (some (Json.num 120)) none none none none none] = true
    ∧ ("V" : String) ≠ ""
    ∧ parseSchema (generateSchema
          [PropertyData.mk "i0" "age" true "integer" none none none none none none
            (some (Json.num 0)) (some (Json.num 120)) none none none none none]
          (some ⟨"", "D", "V"⟩) true)
        = Except.ok ⟨stripIdsL
            [PropertyData.mk "i0" "age" true "integer" none none none none none none
              (some (Json.num 0)) (some (Json.num 120)) none none none none none],
            some ⟨"", "D", "V"⟩⟩ :=
  ⟨by simp [canonicalL, canonicalP, itemsCanon, childrenCanon, typeOkB, optTruthyOk,
            enumFieldOk],
   by simp,
   generate_parse_roundtrip _ _
     (by simp [canonicalL, canonicalP, itemsCanon, childrenCanon, typeOkB, optTruthyOk,
               enumFieldOk])
     (by simp [keysDistinct, PropertyData.key])
     (by simp)⟩
